import Mathlib

/-!
Shallow embedding of `patroni/postgresql/sync.py` (synchronous replication
controller) and proofs about it.

Conventions used throughout:

* Python strings are Lean `String`s (lists of characters); case folding
  (`str.lower`) is modelled by `String.toLower`, which lowers ASCII letters.
* Machine integers do not overflow in this code (LSNs fit in 64 bits by the
  database's contract), so LSNs and pids are `Nat`; `maximum_lag_on_syncnode`
  may be negative and is `Int`.
* Fallible code (`raise ValueError`) is modelled with `Option`: `none` is the
  raised error.
* Python's case-insensitive sets and dicts (`CaseInsensitiveSet`,
  `CaseInsensitiveDict`) are modelled as lists (of names, of name/pid pairs)
  with case-folded membership, lookup and insertion.
* External collaborators (`Postgresql`, `Cluster`, the global configuration)
  are modelled as records of pure values, following the interface description
  of the specification; methods with side effects on the database only
  (the idle-WAL nudge, cache invalidation, sleeping) have no counterpart in
  the state.
-/

/-! ### Case-insensitive collections -/

/-- Case folding of a name (`str.lower`), as a character list. -/
def foldName (s : String) : List Char := s.data.map Char.toLower

/-- Python string comparison `a < b`: lexicographic on code points. -/
def strLt (a b : String) : Prop := List.Lex (· < ·) a.data b.data

instance (a b : String) : Decidable (strLt a b) := by
  unfold strLt; exact List.Lex.decidableRel _ _ _

/-- Membership in a case-insensitive set of names (`CaseInsensitiveSet`). -/
def ciMem (x : String) (l : List String) : Prop :=
  ∃ y ∈ l, foldName y = foldName x

instance (x : String) (l : List String) : Decidable (ciMem x l) :=
  List.decidableBEx _ l

/-- Adding to a case-insensitive set: no-op when a case-folded duplicate is
already present. -/
def ciAdd (l : List String) (x : String) : List String :=
  if ciMem x l then l else l ++ [x]

/-- Key membership in a case-insensitive dict from names to walsender pids. -/
def ciKeyMem (x : String) (l : List (String × Nat)) : Prop :=
  ∃ p ∈ l, foldName p.1 = foldName x

instance (x : String) (l : List (String × Nat)) : Decidable (ciKeyMem x l) :=
  List.decidableBEx _ l

/-- Case-insensitive lookup in a dict from names to walsender pids. -/
def ciLookup (x : String) (l : List (String × Nat)) : Option Nat :=
  (l.find? fun p => foldName p.1 == foldName x).map Prod.snd

/-! ### Tokenizer (`SYNC_REP_PARSER_RE`)

The regex is an ordered alternation; at every position the first alternative
that matches wins, and each alternative is greedy. The alternatives, in
order: `first`, `any` (case-insensitive keywords), whitespace, identifiers,
double-quoted strings, `*`, numbers, `,`, `(`, `)`, and a one-character JUNK
fallback. -/

inductive TokType where
  | first | any | space | ident | dquot | star | num | comma
  | parenstart | parenend | junk
deriving DecidableEq, Repr

/-- Character class of `[A-Za-z_]` (identifier start). -/
def isIdentStart (c : Char) : Bool := c.isAlpha || c == '_'

/-- Character class of `[A-Za-z_0-9$]` (identifier continuation). -/
def isIdentCont (c : Char) : Bool := c.isAlpha || c.isDigit || c == '_' || c == '$'

/-- ASCII whitespace recognised by the regex's `\s` class. -/
def isPySpace (c : Char) : Bool :=
  c == ' ' || c == '\t' || c == '\n' || c == '\r' || c == '\x0b' || c == '\x0c'

/-- Case-insensitive match of the keyword `first` at the head of the input;
returns the five matched characters (original spelling) and the rest. -/
def matchFirstKw : List Char → Option (List Char × List Char)
  | c1 :: c2 :: c3 :: c4 :: c5 :: rest =>
    if c1.toLower = 'f' ∧ c2.toLower = 'i' ∧ c3.toLower = 'r' ∧
        c4.toLower = 's' ∧ c5.toLower = 't' then
      some ([c1, c2, c3, c4, c5], rest)
    else none
  | _ => none

/-- Case-insensitive match of the keyword `any` at the head of the input. -/
def matchAnyKw : List Char → Option (List Char × List Char)
  | c1 :: c2 :: c3 :: rest =>
    if c1.toLower = 'a' ∧ c2.toLower = 'n' ∧ c3.toLower = 'y' then
      some ([c1, c2, c3], rest)
    else none
  | _ => none

/-- Scan the inside of a double-quoted token, mirroring the greedy,
backtracking behaviour of `" (?: [^"]+ | "" )* "`: an escaped pair `""` is
preferred when the remainder can still be closed, otherwise the quote closes
the token. The input starts after the opening quote; the result is the raw
span between the quotes and the rest of the input after the closing quote. -/
def dquotScan : List Char → Option (List Char × List Char)
  | [] => none
  | c :: rest =>
    if c = '"' then
      match rest with
      | '"' :: rest2 =>
        match dquotScan rest2 with
        | some (inner, r) => some ('"' :: '"' :: inner, r)
        | none => some ([], rest)
      | _ => some ([], rest)
    else
      match dquotScan rest with
      | some (inner, r) => some (c :: inner, r)
      | none => none

/-- One step of the tokenizer: the first alternative of
`SYNC_REP_PARSER_RE` matching at the head of the input. Returns the token
type, its lexeme and the remaining input; `none` only on empty input. -/
def scan1 : List Char → Option (TokType × List Char × List Char)
  | [] => none
  | c :: cs =>
    match matchFirstKw (c :: cs) with
    | some (lex, rest) => some (.first, lex, rest)
    | none =>
      match matchAnyKw (c :: cs) with
      | some (lex, rest) => some (.any, lex, rest)
      | none =>
        if isPySpace c then
          some (.space, c :: cs.takeWhile isPySpace, cs.dropWhile isPySpace)
        else if isIdentStart c then
          some (.ident, c :: cs.takeWhile isIdentCont, cs.dropWhile isIdentCont)
        else if c = '"' then
          match dquotScan cs with
          | some (inner, rest) => some (.dquot, '"' :: (inner ++ ['"']), rest)
          | none => some (.junk, [c], cs)
        else if c = '*' then some (.star, [c], cs)
        else if c.isDigit then
          some (.num, c :: cs.takeWhile Char.isDigit, cs.dropWhile Char.isDigit)
        else if c = ',' then some (.comma, [c], cs)
        else if c = '(' then some (.parenstart, [c], cs)
        else if c = ')' then some (.parenend, [c], cs)
        else some (.junk, [c], cs)

/-- Fuel-driven tokenization loop. Each `scan1` step consumes at least one
character, so fuel equal to the input length yields the full token stream. -/
def tokenizeAux : Nat → List Char → List (TokType × List Char)
  | _, [] => []
  | 0, _ :: _ => []
  | fuel + 1, c :: cs =>
    match scan1 (c :: cs) with
    | none => []
    | some (t, lex, rest) => (t, lex) :: tokenizeAux fuel rest

/-- The non-space token stream of a string, as built by
`SYNC_REP_PARSER_RE.finditer` with `space` tokens filtered out. -/
def tokenize (s : String) : List (TokType × List Char) :=
  (tokenizeAux s.data.length s.data).filter fun t => t.1 ≠ TokType.space

/-! ### Parser (`parse_sync_standby_names`) -/

/-- Replace every escaped pair `""` by a single `"`
(Python `value.replace('""', '"')`, left to right, non-overlapping). -/
def unescapeQuotes : List Char → List Char
  | [] => []
  | [c] => [c]
  | c :: d :: rest =>
    if c = '"' ∧ d = '"' then '"' :: unescapeQuotes rest
    else c :: unescapeQuotes (d :: rest)

/-- Numeric value of a digit lexeme (`int(...)`). -/
def tokNum (lex : List Char) : Nat :=
  lex.foldl (fun n c => n * 10 + (c.toNat - '0'.toNat)) 0

/-- Parsed `synchronous_standby_names` value (`_SSN`). `members` is a
case-insensitive set kept as a duplicate-free list in insertion order. -/
structure SSN where
  sync_type : String
  has_star : Bool
  num : Nat
  members : List String
deriving DecidableEq, Repr

/-- The canonical empty value `_EMPTY_SSN = ('off', False, 0, ∅)`. -/
def emptySSN : SSN := ⟨"off", false, 0, []⟩

/-- Header dispatch of `parse_sync_standby_names`: recognises the
`ANY n (...)`, `FIRST n (...)` and `n (...)` forms and otherwise treats the
whole stream as a priority list with `num = 1`. Returns
`(sync_type, num, synclist)`. -/
def ssnHeader (tokens : List (TokType × List Char)) :
    String × Nat × List (TokType × List Char) :=
  let types := tokens.map Prod.fst
  if types.take 3 = [TokType.any, TokType.num, TokType.parenstart] ∧
      types.getLast? = some TokType.parenend then
    ("quorum", tokNum (((tokens.get? 1).map Prod.snd).getD []), (tokens.drop 3).dropLast)
  else if types.take 3 = [TokType.first, TokType.num, TokType.parenstart] ∧
      types.getLast? = some TokType.parenend then
    ("priority", tokNum (((tokens.get? 1).map Prod.snd).getD []), (tokens.drop 3).dropLast)
  else if types.take 2 = [TokType.num, TokType.parenstart] ∧
      types.getLast? = some TokType.parenend then
    ("priority", tokNum (((tokens.get? 0).map Prod.snd).getD []), (tokens.drop 2).dropLast)
  else
    ("priority", 1, tokens)

/-- The member-list loop of `parse_sync_standby_names`: even positions must
be name tokens (`ident`, `first`, `any`, `star`, `dquot`), odd positions must
be commas and must not be last. Accumulates the `has_star` flag and the
member set; `none` is the `ValueError`. -/
def parseSynclist (i : Nat) (star : Bool) (members : List String) :
    List (TokType × List Char) → Option (Bool × List String)
  | [] => some (star, members)
  | (t, lex) :: rest =>
    if i % 2 = 1 then
      if rest = [] then none
      else if t = TokType.comma then parseSynclist (i + 1) star members rest
      else none
    else
      match t with
      | .ident => parseSynclist (i + 1) star (ciAdd members (String.mk lex)) rest
      | .first => parseSynclist (i + 1) star (ciAdd members (String.mk lex)) rest
      | .any => parseSynclist (i + 1) star (ciAdd members (String.mk lex)) rest
      | .star => parseSynclist (i + 1) true (ciAdd members (String.mk lex)) rest
      | .dquot =>
        parseSynclist (i + 1) star
          (ciAdd members (String.mk (unescapeQuotes (lex.drop 1).dropLast))) rest
      | _ => none

/-- `parse_sync_standby_names`: `none` models the raised `ValueError`. -/
def parse_sync_standby_names (value : String) : Option SSN :=
  let tokens := tokenize value
  if tokens = [] then some emptySSN
  else
    let h := ssnHeader tokens
    (parseSynclist 0 false [] h.2.2).map fun p => ⟨h.1, p.1, h.2.1, p.2⟩

/-! ### Quoting (`quote_ident`) -/

/-- Nonempty run of `[A-Za-z_][A-Za-z_0-9$]*`. -/
def identForm : List Char → Bool
  | [] => false
  | c :: cs => isIdentStart c && cs.all isIdentCont

/-- Full match of `SYNC_STANDBY_NAME_RE = ^[A-Za-z_][A-Za-z_0-9$]*$`.
Python's `$` also matches just before a single trailing newline, so a name
whose prefix before a final newline has identifier form also matches. -/
def safeIdentStr (s : String) : Bool :=
  identForm s.data || (s.data.getLast? == some '\n' && identForm s.data.dropLast)

/-- Double every `"` in a name (the escaping step of identifier quoting). -/
def escapeQuotes : List Char → List Char
  | [] => []
  | c :: rest =>
    if c = '"' then '"' :: '"' :: escapeQuotes rest else c :: escapeQuotes rest

/-- Modelled from the spec: `patroni.psycopg.quote_ident` (imported by the
source as `_quote_ident`, not under `src/`): double-quote the name, escaping
any internal `"` as `""`. -/
def psycopgQuoteIdent (s : String) : String :=
  String.mk ('"' :: (escapeQuotes s.data ++ ['"']))

/-- `quote_ident`: emit verbatim when the name fully matches
`SYNC_STANDBY_NAME_RE`, otherwise delegate to the psycopg quoting rule. -/
def quote_ident (s : String) : String :=
  if safeIdentStr s then s else psycopgQuoteIdent s

/-- A keyword match at the head of a name followed by a nonempty run of
identifier characters: the shape on which the tokenizer splits the keyword
off instead of reading one identifier. -/
def kwSuffixBad : Option (List Char × List Char) → Bool
  | some (_, rest) => !rest.isEmpty && rest.all isIdentCont
  | none => false

/-- Unquoted names that the tokenizer breaks apart: `first` or `any`
(case-insensitively) followed by at least one further identifier character,
with the remainder all identifier characters. -/
def kwBadName (x : String) : Bool :=
  kwSuffixBad (matchFirstKw x.data) || kwSuffixBad (matchAnyKw x.data)

/-! ### Collaborator interfaces (spec section 6)

`Member`, `Cluster` (the DCS snapshot) and `Postgresql` (the database client
and configuration collaborator) are consumed interfaces; they are records of
the pure values the controller reads during one invocation. -/

/-- A DCS member: `name`, `is_running`, and the recognised tags. -/
structure Member where
  name : String
  is_running : Bool
  nosync : Bool
  nofailover : Bool
deriving DecidableEq, Repr

/-- DCS cluster snapshot: the member list and the names listed in the
`/sync` key (`cluster.sync.matches` is case-insensitive membership). -/
structure Cluster where
  members : List Member
  sync_members : List String
deriving Repr

/-- `cluster.sync.matches(name)`: whether the DCS `/sync` key lists the
name (case-insensitively). -/
def syncMatches (c : Cluster) (name : String) : Prop :=
  ciMem name c.sync_members

instance (c : Cluster) (name : String) : Decidable (syncMatches c name) := by
  unfold syncMatches; infer_instance

/-- One row of `pg_stat_replication`; the three LSN columns are nullable. -/
structure StatRow where
  pid : Nat
  application_name : String
  sync_state : String
  write_lsn : Option Nat
  flush_lsn : Option Nat
  replay_lsn : Option Nat
deriving DecidableEq, Repr

/-- `global_config`: effective cluster-wide configuration values. -/
structure GlobalConfig where
  synchronous_node_count : Nat
  maximum_lag_on_syncnode : Int
deriving Repr

/-- The database collaborator: every getter the controller calls during one
invocation, as a pure snapshot. `set_ssn_changed` is the boolean result of
`config.set_synchronous_standby_names` for a given written value. -/
structure Postgresql where
  synchronous_commit : String
  synchronous_standby_names : String
  pg_stat_replication : List StatRow
  last_operation : Nat
  supports_multiple_sync : Bool
  global_config : GlobalConfig
  state : String
  is_leader : Bool
  primary_timeline : Nat
  set_ssn_changed : Option String → Bool

/-! ### Replica view (`_Replica`, `_ReplicaList`) -/

/-- `_Replica`: the join of a stats row with its DCS member. -/
structure Replica where
  pid : Nat
  application_name : String
  sync_state : String
  lsn : Nat
  nofailover : Bool
deriving DecidableEq, Repr

/-- The LSN column selected from the value of `synchronous_commit`:
`remote_apply` uses `replay_lsn`, `remote_write` uses `write_lsn`, anything
else uses `flush_lsn`. -/
def selectLsn (pg : Postgresql) (row : StatRow) : Option Nat :=
  if pg.synchronous_commit = "remote_apply" then row.replay_lsn
  else if pg.synchronous_commit = "remote_write" then row.write_lsn
  else row.flush_lsn

/-- The `CaseInsensitiveDict({m.name: m for m in cluster.members})` lookup:
a dict comprehension keeps the last member for a case-folded name. -/
def findMember (cluster : Cluster) (name : String) : Option Member :=
  (cluster.members.filter fun m => foldName m.name == foldName name).getLast?

/-- The filtering part of `_ReplicaList.__init__`: keep rows whose selected
LSN is non-null and whose application name maps to a running member without
the `nosync` tag, in `pg_stat_replication` order. -/
def admittedReplicas (pg : Postgresql) (cluster : Cluster) : List Replica :=
  pg.pg_stat_replication.filterMap fun row =>
    match findMember cluster row.application_name, selectLsn pg row with
    | some m, some lsn =>
      if m.is_running && !m.nosync then
        some ⟨row.pid, row.application_name, row.sync_state, lsn, m.nofailover⟩
      else none
    | _, _ => none

/-- Sort relation of `_ReplicaList`: `a` may precede `b` when the key
`(sync_state, lsn)` of `b` is lexicographically at most that of `a`
(`sort(key=..., reverse=True)`, descending and stable). -/
def repR (a b : Replica) : Prop :=
  strLt b.sync_state a.sync_state ∨ (b.sync_state = a.sync_state ∧ b.lsn ≤ a.lsn)

instance : DecidableRel repR := fun a b => by unfold repR; infer_instance

/-- `_ReplicaList`: admitted replicas, reverse-ordered by
`(sync_state, lsn)` with a stable sort. -/
def buildReplicaList (pg : Postgresql) (cluster : Cluster) : List Replica :=
  (admittedReplicas pg cluster).insertionSort repR

/-- `_ReplicaList.max_lsn`: the maximum LSN when the list has two or more
elements, otherwise the primary's own position (`last_operation`). -/
def replicaListMaxLsn (pg : Postgresql) (rl : List Replica) : Nat :=
  if 1 < rl.length then (rl.map Replica.lsn).foldl Nat.max 0 else pg.last_operation

/-! ### `SyncHandler` state and operations -/

/-- The controller state: last seen `synchronous_standby_names` string, its
parsed value, the memorised primary flush LSN, and the verified "ready"
replicas (name to walsender pid). -/
structure SyncHandler where
  synchronous_standby_names : String
  ssn_data : SSN
  primary_flush_lsn : Nat
  ready_replicas : List (String × Nat)
deriving Repr

/-- `SyncHandler.__init__`. -/
def initialHandler : SyncHandler := ⟨"", emptySSN, 0, []⟩

/-- `_handle_synchronous_standby_names_change`: when the GUC string changed,
remember it, reparse it (a parse failure is logged at warning level — the
boolean result — and treated as the empty SSN), evict from `ready_replicas`
every name no longer in the parsed members, and rebase `primary_flush_lsn`
to `last_operation()`. The idle-WAL query and the cache reset touch only the
database. -/
def handleSSNChange (pg : Postgresql) (st : SyncHandler) : SyncHandler × Bool :=
  if pg.synchronous_standby_names = st.synchronous_standby_names then (st, false)
  else
    let parsed := parse_sync_standby_names pg.synchronous_standby_names
    let ssnData := parsed.getD emptySSN
    let warned := parsed = none
    ({ synchronous_standby_names := pg.synchronous_standby_names
       ssn_data := ssnData
       primary_flush_lsn := pg.last_operation
       ready_replicas :=
         st.ready_replicas.filter fun p => decide (ciMem p.1 ssnData.members) },
     decide warned)

/-- The state-independent part of the `_process_replica_readiness` test:
the replica is listed in the parsed members, and either it is DCS-confirmed
via the `/sync` key or it reports `sync` and has reached the memorised flush
LSN. -/
def readyCond (cluster : Cluster) (ssn : SSN) (flush : Nat) (r : Replica) :
    Prop :=
  ciMem r.application_name ssn.members ∧
    (syncMatches cluster r.application_name ∨
      (r.sync_state = "sync" ∧ flush ≤ r.lsn))

instance (cluster : Cluster) (ssn : SSN) (flush : Nat) (r : Replica) :
    Decidable (readyCond cluster ssn flush r) := by
  unfold readyCond; infer_instance

/-- The admission test of `_process_replica_readiness` for one replica
against the current ready map: not yet ready, and `readyCond`. -/
def readyGate (cluster : Cluster) (ssn : SSN) (flush : Nat)
    (rd : List (String × Nat)) (r : Replica) : Prop :=
  ¬ ciKeyMem r.application_name rd ∧ readyCond cluster ssn flush r

instance (cluster : Cluster) (ssn : SSN) (flush : Nat)
    (rd : List (String × Nat)) (r : Replica) :
    Decidable (readyGate cluster ssn flush rd r) := by
  unfold readyGate; infer_instance

/-- `_process_replica_readiness`: record the walsender pid of every replica
that passes the gate, in replica-list order. -/
def processReadiness (cluster : Cluster) (ssn : SSN) (flush : Nat)
    (rd : List (String × Nat)) (rl : List Replica) : List (String × Nat) :=
  rl.foldl
    (fun rd r =>
      if readyGate cluster ssn flush rd r then rd ++ [(r.application_name, r.pid)]
      else rd)
    rd

/-- Sort relation of the candidate loop: members without the `nofailover`
tag first (`sorted(replica_list, key=lambda x: x.nofailover)`, stable). -/
def nfR (a b : Replica) : Prop := a.nofailover.toNat ≤ b.nofailover.toNat

instance : DecidableRel nfR := fun a b => by unfold nfR; infer_instance

/-- The candidate selection loop of `current_state`: walk the replicas in
`nofailover`-then-freshness order; a replica lagging more than
`maximum_lag_on_syncnode` behind `max_lsn` is skipped when that setting is
positive; otherwise its name joins `candidates`, and also `sync_nodes` when
it reports `sync` and is in the ready map; stop as soon as `candidates`
reaches `sync_node_count`. -/
def selectSync (sncount : Nat) (maxlag : Int) (maxLsn : Nat)
    (ready : List (String × Nat)) :
    List Replica → List String → List String → List String × List String
  | [], cands, syncs => (cands, syncs)
  | r :: rest, cands, syncs =>
    let pass : Prop := maxlag ≤ 0 ∨ (maxLsn : Int) - (r.lsn : Int) ≤ maxlag
    let cands' := if pass then ciAdd cands r.application_name else cands
    let syncs' :=
      if pass ∧ r.sync_state = "sync" ∧ ciKeyMem r.application_name ready then
        ciAdd syncs r.application_name
      else syncs
    if sncount ≤ cands'.length then (cands', syncs')
    else selectSync sncount maxlag maxLsn ready rest cands' syncs'

/-- Result of one `current_state` call: the updated controller state and the
returned `(candidates, sync_nodes)` pair. -/
structure StepResult where
  state : SyncHandler
  candidates : List String
  sync_nodes : List String
deriving Repr

/-- `current_state(cluster)`: handle an SSN change, build the replica view,
update readiness, then select candidates and sync nodes. The node count is
forced to 1 when multiple synchronous standbys are unsupported. -/
def current_state (pg : Postgresql) (cluster : Cluster) (st : SyncHandler) :
    StepResult :=
  let st1 := (handleSSNChange pg st).1
  let rl := buildReplicaList pg cluster
  let ready := processReadiness cluster st1.ssn_data st1.primary_flush_lsn
    st1.ready_replicas rl
  let sncount :=
    if pg.supports_multiple_sync then pg.global_config.synchronous_node_count else 1
  let maxlag := pg.global_config.maximum_lag_on_syncnode
  let pair := selectSync sncount maxlag (replicaListMaxLsn pg rl) ready
    (rl.insertionSort nfR) [] []
  ⟨{ st1 with ready_replicas := ready }, pair.1, pair.2⟩

/-- Iterated invocations of `current_state` from the freshly initialised
handler, with a fixed collaborator snapshot. -/
def iterState (pg : Postgresql) (cluster : Cluster) : Nat → SyncHandler
  | 0 => initialHandler
  | n + 1 => (current_state pg cluster (iterState pg cluster n)).state

/-- `set_synchronous_standby_names(sync)`: build the emitted GUC value (the
`*` collapse, quoting, and the `N (...)` form for multi-sync), hand it to the
database config collaborator, and — unless the write is a no-op, the node is
not a running leader, or `*` was emitted — re-run the SSN-change handler when
still on a primary timeline. Returns the emitted value and the new state. -/
def set_synchronous_standby_names (pg : Postgresql) (st : SyncHandler)
    (sync : List String) : Option String × SyncHandler :=
  let hasAsterisk := "*" ∈ sync
  let syncList := if hasAsterisk then ["*"] else sync.map quote_ident
  let syncParam : Option String :=
    if pg.supports_multiple_sync ∧ 1 < syncList.length then
      some (toString syncList.length ++ " (" ++ String.intercalate "," syncList ++ ")")
    else syncList.head?
  if ¬ (pg.set_ssn_changed syncParam = true ∧ pg.state = "running" ∧
        pg.is_leader = true) ∨ hasAsterisk then
    (syncParam, st)
  else
    (syncParam, if 0 < pg.primary_timeline then (handleSSNChange pg st).1 else st)

/-! ### Order instances, scenario fixtures and claim-side definitions -/

instance : IsTotal Replica repR := by
  constructor
  intro a b
  rcases trichotomous_of (List.Lex (fun c d : Char => c < d))
      a.sync_state.data b.sync_state.data with hlt | heq | hgt
  · exact Or.inr (Or.inl hlt)
  · have hs : a.sync_state = b.sync_state := String.ext heq
    rcases Nat.le_total b.lsn a.lsn with hl | hl
    · exact Or.inl (Or.inr ⟨hs.symm, hl⟩)
    · exact Or.inr (Or.inr ⟨hs, hl⟩)
  · exact Or.inl (Or.inl hgt)

instance : IsTrans Replica repR := by
  constructor
  intro a b c hab hbc
  rcases hab with hab | ⟨hab1, hab2⟩
  · rcases hbc with hbc | ⟨hbc1, hbc2⟩
    · refine Or.inl ?_
      unfold strLt at *
      exact Trans.trans hbc hab
    · refine Or.inl ?_
      unfold strLt at *
      rw [hbc1]
      exact hab
  · rcases hbc with hbc | ⟨hbc1, hbc2⟩
    · refine Or.inl ?_
      unfold strLt at *
      rw [← hab1]
      exact hbc
    · exact Or.inr ⟨hbc1.trans hab1, hbc2.trans hab2⟩


/-- Bootstrap scenario cluster: members `a` and `b`, both running, no tags,
no `/sync` entry. -/
def bootCluster : Cluster :=
  ⟨[⟨"a", true, false, false⟩, ⟨"b", true, false, false⟩], []⟩

/-- Bootstrap scenario database snapshot: `synchronous_commit = on`, empty
`synchronous_standby_names`, stats rows `a`(async, flush 100) and
`b`(async, flush 100), `synchronous_node_count = 1`,
`maximum_lag_on_syncnode = -1`. -/
def bootPg : Postgresql :=
  ⟨"on", "",
    [⟨10, "a", "async", some 100, some 100, some 100⟩,
     ⟨11, "b", "async", some 100, some 100, some 100⟩],
    150, true, ⟨1, -1⟩, "running", true, 1, fun _ => true⟩

/-- Cluster for the C1 witness (spec scenario 2): members `a` and `b`. -/
def c1Cluster : Cluster :=
  ⟨[⟨"a", true, false, false⟩, ⟨"b", true, false, false⟩], []⟩

/-- Snapshot for the C1 witness: SSN `a,b`, `a` reporting `sync` at flush
200, `b` reporting `potential` at flush 180, primary at 150. -/
def c1Pg : Postgresql :=
  ⟨"on", "a,b",
    [⟨10, "a", "sync", some 200, some 200, some 200⟩,
     ⟨11, "b", "potential", some 180, some 180, some 180⟩],
    150, true, ⟨1, -1⟩, "running", true, 1, fun _ => true⟩

/-- A name is nosync-blocked in a cluster when the member dict lookup for it
either finds nothing or finds a member carrying the `nosync` tag. -/
def nosyncName (cluster : Cluster) (name : String) : Bool :=
  match findMember cluster name with
  | some m => m.nosync
  | none => true

/-- Cluster for the C2 witness: member `c` is tagged `nosync`. -/
def c2Cluster : Cluster :=
  ⟨[⟨"a", true, false, false⟩, ⟨"c", true, true, false⟩], []⟩

/-- Snapshot for the C2 witness: SSN `a,c`, both replicas reporting `sync`
above the primary position. -/
def c2Pg : Postgresql :=
  ⟨"on", "a,c",
    [⟨10, "a", "sync", some 200, some 200, some 200⟩,
     ⟨12, "c", "sync", some 200, some 200, some 200⟩],
    150, true, ⟨2, -1⟩, "running", true, 1, fun _ => true⟩

/-- Token types accepted at even (name) positions of a member list. -/
def nameTokB (t : TokType) : Bool :=
  match t with
  | .ident => true
  | .first => true
  | .any => true
  | .star => true
  | .dquot => true
  | _ => false

/-- The claim's description of a malformed member list: some odd position is
not a comma, or the final token is a comma, or some even position is not a
name token. -/
def badSynclist (l : List (TokType × List Char)) : Prop :=
  (∃ j : Fin l.length, j.val % 2 = 1 ∧ (l.get j).1 ≠ TokType.comma) ∨
  (l.getLast?.map Prod.fst = some TokType.comma) ∨
  (∃ j : Fin l.length, j.val % 2 = 0 ∧ nameTokB (l.get j).1 = false)

instance (l : List (TokType × List Char)) : Decidable (badSynclist l) := by
  unfold badSynclist; infer_instance

/-- Total accessor for the token type at a list position (`junk` out of
range). -/
def tokTypeAt (l : List (TokType × List Char)) (j : Nat) : TokType :=
  ((l.get? j).map Prod.fst).getD TokType.junk

/-- Positions that make the member-list loop raise when scanning `l` with
the running index starting at `i`. -/
def badFrom (i : Nat) (l : List (TokType × List Char)) : Prop :=
  ∃ j, j < l.length ∧
    (((i + j) % 2 = 1 ∧ (j = l.length - 1 ∨ tokTypeAt l j ≠ TokType.comma)) ∨
     ((i + j) % 2 = 0 ∧ nameTokB (tokTypeAt l j) = false))

/-! ### Helper lemmas -/

/-- Nothing passes the readiness gate when the parsed member set is empty. -/
theorem processReadiness_empty_members (cluster : Cluster) (ssn : SSN)
    (flush : Nat) (hm : ssn.members = []) :
    ∀ (rl : List Replica) (rd : List (String × Nat)),
      processReadiness cluster ssn flush rd rl = rd := by
  intro rl
  induction rl with
  | nil => intro rd; rfl
  | cons r rest ih =>
    intro rd
    have hgate : ¬ readyGate cluster ssn flush rd r := by
      intro hg
      rcases hg.2.1 with ⟨y, hy, _⟩
      rw [hm] at hy
      exact absurd hy (List.not_mem_nil y)
    simpa [processReadiness, hgate] using ih rd

/-! ### Claim C9: parse failures are recovered locally -/

/-- C9: when the SSN string read from the database has changed and fails to
parse, the change handler warns (the boolean), installs the canonical empty
SSN, rebases `primary_flush_lsn`, and evicts every name from
`ready_replicas`; `current_state` carries on with the empty SSN and an empty
ready map instead of propagating the error. -/
theorem parse_failure_recovered (pg : Postgresql) (cluster : Cluster)
    (st : SyncHandler)
    (h1 : pg.synchronous_standby_names ≠ st.synchronous_standby_names)
    (h2 : parse_sync_standby_names pg.synchronous_standby_names = none) :
    handleSSNChange pg st =
      (⟨pg.synchronous_standby_names, emptySSN, pg.last_operation, []⟩, true) ∧
    (current_state pg cluster st).state.ssn_data = emptySSN ∧
    (current_state pg cluster st).state.ready_replicas = [] := by
  have hh : handleSSNChange pg st =
      (⟨pg.synchronous_standby_names, emptySSN, pg.last_operation, []⟩, true) := by
    unfold handleSSNChange
    rw [if_neg h1]
    simp only [h2, Option.getD_none, Prod.mk.injEq]
    constructor
    · congr 1
      have : ∀ p : String × Nat, (decide (ciMem p.1 emptySSN.members)) = false := by
        intro p
        simp [ciMem, emptySSN]
      calc st.ready_replicas.filter (fun p => decide (ciMem p.1 emptySSN.members))
          = st.ready_replicas.filter (fun _ => false) := by
            apply List.filter_congr; intro p _; exact this p
        _ = [] := List.filter_false _
    · simp
  refine ⟨hh, ?_, ?_⟩ <;>
    simp [current_state, hh, processReadiness_empty_members cluster emptySSN _ rfl]

/-! ### Claim C5: the bootstrap scenario -/

/-- C5, counterexample: on the bootstrap input the first `current_state`
call does not return an empty candidate set — the selection loop admits
replicas regardless of the (empty) SSN, so `a` is returned. -/
theorem bootstrap_candidates_not_empty :
    (current_state bootPg bootCluster initialHandler).candidates = ["a"] ∧
    (current_state bootPg bootCluster initialHandler).candidates ≠ [] := by
  refine ⟨by decide, ?_⟩
  intro h
  have : (["a"] : List String) = [] := by
    have h1 : (current_state bootPg bootCluster initialHandler).candidates = ["a"] := by decide
    rw [h1] at h; exact h
  simp at this

/-- C5, amended: on the bootstrap input (members `{a, b}` both running, no
`/sync` entry, empty SSN, both replicas async at flush 100, with
`synchronous_node_count = 1` and a non-positive lag threshold) the first
`current_state` call returns candidates `{a}` — the freshest replica is
selected even though the SSN is empty — and empty `sync_nodes`, and no
replica becomes ready. -/
theorem bootstrap_scenario :
    (current_state bootPg bootCluster initialHandler).candidates = ["a"] ∧
    (current_state bootPg bootCluster initialHandler).sync_nodes = [] ∧
    (current_state bootPg bootCluster initialHandler).state.ready_replicas = [] := by
  decide

/-! ### Claim C8: the star collapse in `set_synchronous_standby_names` -/

/-- C8: whenever the input collection contains `*`, exactly the string `*`
is handed to the database config collaborator and the function returns
without the post-write re-read: the whole controller state — last SSN
string, parsed SSN, `primary_flush_lsn` and `ready_replicas` — is unchanged. -/
theorem set_ssn_star_frame (pg : Postgresql) (st : SyncHandler)
    (sync : List String) (h : "*" ∈ sync) :
    set_synchronous_standby_names pg st sync = (some "*", st) := by
  unfold set_synchronous_standby_names
  simp [h]

/-- Witness for C8 at the spec's concrete input `{"x", "*"}`. -/
theorem set_ssn_star_frame_witness :
    set_synchronous_standby_names bootPg initialHandler ["x", "*"] =
      (some "*", initialHandler) :=
  set_ssn_star_frame bootPg initialHandler ["x", "*"] (by decide)

/-- Witness for C9 at a concrete changed-and-unparseable SSN value. -/
theorem parse_failure_recovered_witness :
    handleSSNChange
        ⟨"on", "1", [], 77, true, ⟨1, -1⟩, "running", true, 1, fun _ => true⟩
        initialHandler =
      (⟨"1", emptySSN, 77, []⟩, true) ∧
    (current_state
        ⟨"on", "1", [], 77, true, ⟨1, -1⟩, "running", true, 1, fun _ => true⟩
        bootCluster initialHandler).state.ssn_data = emptySSN ∧
    (current_state
        ⟨"on", "1", [], 77, true, ⟨1, -1⟩, "running", true, 1, fun _ => true⟩
        bootCluster initialHandler).state.ready_replicas = [] :=
  parse_failure_recovered _ bootCluster initialHandler (by decide) (by decide)

/-! ### Claim C4: the candidate set is bounded by the node count -/

theorem ciAdd_length_le (l : List String) (x : String) :
    (ciAdd l x).length ≤ l.length + 1 := by
  unfold ciAdd
  split
  · exact Nat.le_succ _
  · simp

theorem selectSync_length_le (snc : Nat) (maxlag : Int) (maxLsn : Nat)
    (ready : List (String × Nat)) :
    ∀ (l : List Replica) (cands syncs : List String),
      cands.length < snc →
      (selectSync snc maxlag maxLsn ready l cands syncs).1.length ≤ snc := by
  intro l
  induction l with
  | nil => intro cands syncs h; simpa [selectSync] using Nat.le_of_lt h
  | cons r rest ih =>
    intro cands syncs h
    unfold selectSync
    by_cases hpass : (maxlag ≤ 0 ∨ (maxLsn : Int) - (r.lsn : Int) ≤ maxlag)
    · simp only [if_pos hpass]
      have hlen := ciAdd_length_le cands r.application_name
      by_cases hstop : snc ≤ (ciAdd cands r.application_name).length
      · simp only [if_pos hstop]
        omega
      · simp only [if_neg hstop]
        exact ih _ _ (by omega)
    · simp only [if_neg hpass]
      by_cases hstop : snc ≤ cands.length
      · simp only [if_pos hstop]
        omega
      · simp only [if_neg hstop]
        exact ih _ _ (by omega)

/-- C4: the returned candidate set never exceeds `synchronous_node_count`
(forced to 1 when the database does not support multiple synchronous
standbys). The effective `synchronous_node_count` delivered by the global
configuration is at least 1. -/
theorem candidates_card_le_node_count (pg : Postgresql) (cluster : Cluster)
    (st : SyncHandler) (h : 1 ≤ pg.global_config.synchronous_node_count) :
    (current_state pg cluster st).candidates.length ≤
      (if pg.supports_multiple_sync then pg.global_config.synchronous_node_count
       else 1) := by
  unfold current_state
  apply selectSync_length_le
  simp only [List.length_nil]
  split
  · omega
  · omega

/-- Witness for C4 on the bootstrap input. -/
theorem candidates_card_le_node_count_witness :
    (current_state bootPg bootCluster initialHandler).candidates.length ≤
      (if bootPg.supports_multiple_sync then
        bootPg.global_config.synchronous_node_count else 1) :=
  candidates_card_le_node_count bootPg bootCluster initialHandler (by decide)

/-! ### Claim C7: ordering of the replica view -/

/-- C7: the replica view is sorted so that any earlier replica `a` and later
replica `b` satisfy `(b.sync_state, b.lsn) ≤ (a.sync_state, a.lsn)` in the
lexicographic string/number order — in particular `sync` rows precede
`quorum` rows, which precede `potential`, which precede `async` (the string
order of the four labels), and ties on `sync_state` are broken by the larger
LSN first. -/
theorem replica_view_sorted (pg : Postgresql) (cluster : Cluster) :
    (buildReplicaList pg cluster).Sorted repR ∧
    strLt "quorum" "sync" ∧ strLt "potential" "quorum" ∧
    strLt "async" "potential" := by
  refine ⟨?_, by decide, by decide, by decide⟩
  unfold buildReplicaList
  exact List.sorted_insertionSort repR _

/-! ### Claim C1: characterisation of `ready_replicas` admission -/

theorem ciKeyMem_congr {a b : String} (h : foldName a = foldName b)
    (l : List (String × Nat)) : ciKeyMem a l ↔ ciKeyMem b l := by
  unfold ciKeyMem
  rw [h]

theorem ciKeyMem_append (x : String) (l1 l2 : List (String × Nat)) :
    ciKeyMem x (l1 ++ l2) ↔ ciKeyMem x l1 ∨ ciKeyMem x l2 := by
  unfold ciKeyMem
  constructor
  · rintro ⟨p, hp, he⟩
    rcases List.mem_append.1 hp with hp | hp
    · exact Or.inl ⟨p, hp, he⟩
    · exact Or.inr ⟨p, hp, he⟩
  · rintro (⟨p, hp, he⟩ | ⟨p, hp, he⟩)
    · exact ⟨p, List.mem_append.2 (Or.inl hp), he⟩
    · exact ⟨p, List.mem_append.2 (Or.inr hp), he⟩

theorem ciKeyMem_pair (x name : String) (pid : Nat) :
    ciKeyMem x [(name, pid)] ↔ foldName name = foldName x := by
  unfold ciKeyMem
  simp

theorem find?_eq_none_of_not_ciKeyMem {name : String}
    {rd : List (String × Nat)} (h : ¬ ciKeyMem name rd) :
    rd.find? (fun p => foldName p.1 == foldName name) = none := by
  rw [List.find?_eq_none]
  intro p hp hbeq
  exact h ⟨p, hp, beq_iff_eq.1 hbeq⟩

theorem ciLookup_of_not_ciKeyMem {name : String} {rd : List (String × Nat)}
    (h : ¬ ciKeyMem name rd) (e : String × Nat)
    (he : foldName e.1 = foldName name) :
    ciLookup name (rd ++ [e]) = some e.2 := by
  unfold ciLookup
  rw [List.find?_append, find?_eq_none_of_not_ciKeyMem h]
  simp [List.find?, he]

theorem ciLookup_append_of_ciKeyMem {name : String} {rd : List (String × Nat)}
    (h : ciKeyMem name rd) (l : List (String × Nat)) :
    ciLookup name (rd ++ l) = ciLookup name rd := by
  unfold ciLookup
  rw [List.find?_append]
  rcases h with ⟨p, hp, he⟩
  have : rd.find? (fun p => foldName p.1 == foldName name) ≠ none := by
    intro hn
    rw [List.find?_eq_none] at hn
    exact hn p hp (beq_iff_eq.2 he)
  rcases Option.ne_none_iff_exists.1 this with ⟨q, hq⟩
  rw [← hq]
  rfl

/-- Membership characterisation of `_process_replica_readiness`: after the
pass, a name is ready exactly when it was already ready or some replica in
the view carries that name (case-folded) and satisfies the admission
condition — membership in the parsed SSN and the DCS-or-caught-up
disjunction. -/
theorem processReadiness_keyMem (cluster : Cluster) (ssn : SSN) (flush : Nat) :
    ∀ (rl : List Replica) (rd : List (String × Nat)) (name : String),
      ciKeyMem name (processReadiness cluster ssn flush rd rl) ↔
        ciKeyMem name rd ∨
          ∃ r ∈ rl, foldName r.application_name = foldName name ∧
            readyCond cluster ssn flush r := by
  intro rl
  induction rl with
  | nil => intro rd name; simp [processReadiness]
  | cons r rest ih =>
    intro rd name
    have hstep : processReadiness cluster ssn flush rd (r :: rest) =
        processReadiness cluster ssn flush
          (if readyGate cluster ssn flush rd r then
            rd ++ [(r.application_name, r.pid)] else rd) rest := by
      simp [processReadiness]
    rw [hstep]
    by_cases hg : readyGate cluster ssn flush rd r
    · rw [if_pos hg, ih]
      rw [ciKeyMem_append, ciKeyMem_pair]
      constructor
      · rintro ((h | h) | h)
        · exact Or.inl h
        · exact Or.inr ⟨r, List.mem_cons_self r rest, h, hg.2⟩
        · rcases h with ⟨r', hr', he', hc'⟩
          exact Or.inr ⟨r', List.mem_cons_of_mem r hr', he', hc'⟩
      · rintro (h | h)
        · exact Or.inl (Or.inl h)
        · rcases h with ⟨r', hr', he', hc'⟩
          rcases List.mem_cons.1 hr' with rfl | hr'
          · exact Or.inl (Or.inr he')
          · exact Or.inr ⟨r', hr', he', hc'⟩
    · rw [if_neg hg, ih]
      constructor
      · rintro (h | h)
        · exact Or.inl h
        · rcases h with ⟨r', hr', he', hc'⟩
          exact Or.inr ⟨r', List.mem_cons_of_mem r hr', he', hc'⟩
      · rintro (h | h)
        · exact Or.inl h
        · rcases h with ⟨r', hr', he', hc'⟩
          rcases List.mem_cons.1 hr' with rfl | hr'
          · refine Or.inl ?_
            have hk : ciKeyMem r'.application_name rd := by
              by_contra hk
              exact hg ⟨hk, hc'⟩
            exact (ciKeyMem_congr he' rd).1 hk
          · exact Or.inr ⟨r', hr', he', hc'⟩

/-- The readiness pass never rewrites an existing entry: lookups of already
ready names are unchanged. -/
theorem processReadiness_lookup_stable (cluster : Cluster) (ssn : SSN)
    (flush : Nat) :
    ∀ (rl : List Replica) (rd : List (String × Nat)) (name : String),
      ciKeyMem name rd →
      ciLookup name (processReadiness cluster ssn flush rd rl) =
        ciLookup name rd := by
  intro rl
  induction rl with
  | nil => intro rd name _; rfl
  | cons r rest ih =>
    intro rd name hk
    have hstep : processReadiness cluster ssn flush rd (r :: rest) =
        processReadiness cluster ssn flush
          (if readyGate cluster ssn flush rd r then
            rd ++ [(r.application_name, r.pid)] else rd) rest := by
      simp [processReadiness]
    rw [hstep]
    by_cases hg : readyGate cluster ssn flush rd r
    · rw [if_pos hg]
      have hk' : ciKeyMem name (rd ++ [(r.application_name, r.pid)]) :=
        (ciKeyMem_append name rd _).2 (Or.inl hk)
      rw [ih _ name hk', ciLookup_append_of_ciKeyMem hk]
    · rw [if_neg hg]
      exact ih _ name hk

/-- When a name becomes ready during the pass, the recorded pid is the
walsender pid of a replica of that name that passed the admission test. -/
theorem processReadiness_lookup_new (cluster : Cluster) (ssn : SSN)
    (flush : Nat) :
    ∀ (rl : List Replica) (rd : List (String × Nat)) (name : String),
      ¬ ciKeyMem name rd →
      ciKeyMem name (processReadiness cluster ssn flush rd rl) →
      ∃ r ∈ rl, foldName r.application_name = foldName name ∧
        readyCond cluster ssn flush r ∧
        ciLookup name (processReadiness cluster ssn flush rd rl) = some r.pid := by
  intro rl
  induction rl with
  | nil =>
    intro rd name hk hmem
    exact absurd hmem hk
  | cons r rest ih =>
    intro rd name hk hmem
    have hstep : processReadiness cluster ssn flush rd (r :: rest) =
        processReadiness cluster ssn flush
          (if readyGate cluster ssn flush rd r then
            rd ++ [(r.application_name, r.pid)] else rd) rest := by
      simp [processReadiness]
    rw [hstep] at hmem ⊢
    by_cases hg : readyGate cluster ssn flush rd r
    · rw [if_pos hg] at hmem ⊢
      by_cases he : foldName r.application_name = foldName name
      · refine ⟨r, List.mem_cons_self r rest, he, hg.2, ?_⟩
        have hk' : ciKeyMem name (rd ++ [(r.application_name, r.pid)]) :=
          (ciKeyMem_append name rd _).2
            (Or.inr ((ciKeyMem_pair name _ _).2 he))
        rw [processReadiness_lookup_stable cluster ssn flush rest _ name hk']
        exact ciLookup_of_not_ciKeyMem hk _ he
      · have hk' : ¬ ciKeyMem name (rd ++ [(r.application_name, r.pid)]) := by
          intro hmem'
          rcases (ciKeyMem_append name rd _).1 hmem' with h | h
          · exact hk h
          · exact he ((ciKeyMem_pair name _ _).1 h)
        rcases ih _ name hk' hmem with ⟨r', hr', he', hc', hl'⟩
        exact ⟨r', List.mem_cons_of_mem r hr', he', hc', hl'⟩
    · rw [if_neg hg] at hmem ⊢
      rcases ih _ name hk hmem with ⟨r', hr', he', hc', hl'⟩
      exact ⟨r', List.mem_cons_of_mem r hr', he', hc', hl'⟩

/-- C1: on any `current_state` invocation, a name is a key of the resulting
`ready_replicas` exactly when it was already a key after the SSN-change
pruning, or some replica of that name in the replica view is listed in
`parsed_ssn.members` and either matches the DCS `/sync` key or reports
`sync_state = sync` with its selected LSN at or above `primary_flush_lsn`;
moreover a newly admitted name records the walsender pid of such a replica.
There is no other path into `ready_replicas`. -/
theorem ready_replicas_admission (pg : Postgresql) (cluster : Cluster)
    (st : SyncHandler) (name : String) :
    (ciKeyMem name (current_state pg cluster st).state.ready_replicas ↔
      ciKeyMem name (handleSSNChange pg st).1.ready_replicas ∨
        ∃ r ∈ buildReplicaList pg cluster,
          foldName r.application_name = foldName name ∧
          ciMem r.application_name (handleSSNChange pg st).1.ssn_data.members ∧
          (syncMatches cluster r.application_name ∨
            (r.sync_state = "sync" ∧
              (handleSSNChange pg st).1.primary_flush_lsn ≤ r.lsn))) ∧
    (¬ ciKeyMem name (handleSSNChange pg st).1.ready_replicas →
      ciKeyMem name (current_state pg cluster st).state.ready_replicas →
      ∃ r ∈ buildReplicaList pg cluster,
        foldName r.application_name = foldName name ∧
        ciLookup name (current_state pg cluster st).state.ready_replicas =
          some r.pid ∧
        ciMem r.application_name (handleSSNChange pg st).1.ssn_data.members ∧
        (syncMatches cluster r.application_name ∨
          (r.sync_state = "sync" ∧
            (handleSSNChange pg st).1.primary_flush_lsn ≤ r.lsn))) := by
  have hrd : (current_state pg cluster st).state.ready_replicas =
      processReadiness cluster (handleSSNChange pg st).1.ssn_data
        (handleSSNChange pg st).1.primary_flush_lsn
        (handleSSNChange pg st).1.ready_replicas
        (buildReplicaList pg cluster) := rfl
  constructor
  · rw [hrd, processReadiness_keyMem]
    unfold readyCond
    constructor
    · rintro (h | ⟨r, hr, he, hm, hc⟩)
      · exact Or.inl h
      · exact Or.inr ⟨r, hr, he, hm, hc⟩
    · rintro (h | ⟨r, hr, he, hm, hc⟩)
      · exact Or.inl h
      · exact Or.inr ⟨r, hr, he, hm, hc⟩
  · intro hnew hmem
    rw [hrd] at hmem ⊢
    rcases processReadiness_lookup_new cluster _ _ _ _ name hnew hmem with
      ⟨r, hr, he, hc, hl⟩
    exact ⟨r, hr, he, hl, hc.1, hc.2⟩

/-- Witness for C1: on scenario 2, the name `a` is newly admitted and its
recorded pid is the walsender pid of the qualifying replica. -/
theorem ready_replicas_admission_witness :
    ∃ r ∈ buildReplicaList c1Pg c1Cluster,
      foldName r.application_name = foldName "a" ∧
      ciLookup "a" (current_state c1Pg c1Cluster initialHandler).state.ready_replicas =
        some r.pid ∧
      ciMem r.application_name (handleSSNChange c1Pg initialHandler).1.ssn_data.members ∧
      (syncMatches c1Cluster r.application_name ∨
        (r.sync_state = "sync" ∧
          (handleSSNChange c1Pg initialHandler).1.primary_flush_lsn ≤ r.lsn)) :=
  (ready_replicas_admission c1Pg c1Cluster initialHandler "a").2
    (by decide) (by decide)

/-! ### Claim C2: `nosync` members never appear -/

theorem findMember_congr {a b : String} (cluster : Cluster)
    (h : foldName a = foldName b) :
    findMember cluster a = findMember cluster b := by
  unfold findMember
  rw [h]

theorem ciMem_singleton (x y : String) :
    ciMem x [y] ↔ foldName y = foldName x := by
  unfold ciMem
  simp

theorem ciMem_congr {a b : String} (h : foldName a = foldName b)
    (l : List String) : ciMem a l ↔ ciMem b l := by
  unfold ciMem
  rw [h]

theorem ciMem_ciAdd_imp {x : String} {l : List String} {y : String}
    (h : ciMem x (ciAdd l y)) : ciMem x l ∨ foldName y = foldName x := by
  unfold ciAdd at h
  split at h
  · exact Or.inl h
  · rcases h with ⟨z, hz, he⟩
    rcases List.mem_append.1 hz with hz | hz
    · exact Or.inl ⟨z, hz, he⟩
    · rcases List.mem_singleton.1 hz with rfl
      exact Or.inr he

/-- Replicas in the admitted view never carry the (case-folded) name of a
nosync-blocked member: the `_ReplicaList` filter drops them. -/
theorem admittedReplicas_no_nosync (pg : Postgresql) (cluster : Cluster)
    (name : String) (h : nosyncName cluster name = true) :
    ∀ r ∈ admittedReplicas pg cluster,
      foldName r.application_name ≠ foldName name := by
  intro r hr he
  rcases List.mem_filterMap.1 hr with ⟨row, _, hf⟩
  rcases hfm : findMember cluster row.application_name with _ | m
  · rw [hfm] at hf
    simp at hf
  · rcases hsl : selectLsn pg row with _ | lsn
    · rw [hfm, hsl] at hf
      simp at hf
    · rw [hfm, hsl] at hf
      by_cases hrun : row.application_name = row.application_name
      · simp only [] at hf
        split at hf
        · next hcond =>
          have happ : r.application_name = row.application_name := by
            cases hf
            rfl
          have hno : m.nosync = false := by
            simp only [Bool.and_eq_true] at hcond
            simpa using hcond.2
          rw [happ] at he
          have := findMember_congr cluster he
          rw [hfm] at this
          unfold nosyncName at h
          rw [← this] at h
          simp [hno] at h
        · exact absurd hf (by simp)
      · exact hrun rfl

theorem ciKeyMem_of_filter {name : String} {l : List (String × Nat)}
    {p : String × Nat → Bool} (h : ciKeyMem name (l.filter p)) :
    ciKeyMem name l := by
  rcases h with ⟨q, hq, he⟩
  exact ⟨q, (List.mem_filter.1 hq).1, he⟩

/-- The SSN-change handler can only shrink the ready map. -/
theorem handleSSNChange_ready_sub (pg : Postgresql) (st : SyncHandler)
    {name : String}
    (h : ciKeyMem name (handleSSNChange pg st).1.ready_replicas) :
    ciKeyMem name st.ready_replicas := by
  unfold handleSSNChange at h
  split at h
  · exact h
  · exact ciKeyMem_of_filter h

/-- Names in the outputs of the selection loop come from its accumulators or
from application names of the replicas it walks. -/
theorem selectSync_subset (snc : Nat) (maxlag : Int) (maxLsn : Nat)
    (ready : List (String × Nat)) (name : String) :
    ∀ (l : List Replica) (cands syncs : List String),
      (ciMem name (selectSync snc maxlag maxLsn ready l cands syncs).1 →
        ciMem name cands ∨
          ∃ r ∈ l, foldName r.application_name = foldName name) ∧
      (ciMem name (selectSync snc maxlag maxLsn ready l cands syncs).2 →
        ciMem name syncs ∨
          ∃ r ∈ l, foldName r.application_name = foldName name) := by
  intro l
  induction l with
  | nil =>
    intro cands syncs
    exact ⟨fun h => Or.inl h, fun h => Or.inl h⟩
  | cons r rest ih =>
    intro cands syncs
    have lift : ∀ {acc : List String},
        (ciMem name acc ∨
          ∃ r' ∈ rest, foldName r'.application_name = foldName name) →
        (ciMem name acc ∨
          ∃ r' ∈ r :: rest, foldName r'.application_name = foldName name) := by
      rintro acc (h | ⟨r', hr', he'⟩)
      · exact Or.inl h
      · exact Or.inr ⟨r', List.mem_cons_of_mem r hr', he'⟩
    have hcands : ∀ h : ciMem name
        (if (maxlag ≤ 0 ∨ (maxLsn : Int) - (r.lsn : Int) ≤ maxlag) then
          ciAdd cands r.application_name else cands),
        ciMem name cands ∨
          ∃ r' ∈ r :: rest, foldName r'.application_name = foldName name := by
      intro h
      split at h
      · rcases ciMem_ciAdd_imp h with h | h
        · exact Or.inl h
        · exact Or.inr ⟨r, List.mem_cons_self r rest, h⟩
      · exact Or.inl h
    have hsyncs : ∀ h : ciMem name
        (if (maxlag ≤ 0 ∨ (maxLsn : Int) - (r.lsn : Int) ≤ maxlag) ∧
            r.sync_state = "sync" ∧ ciKeyMem r.application_name ready then
          ciAdd syncs r.application_name else syncs),
        ciMem name syncs ∨
          ∃ r' ∈ r :: rest, foldName r'.application_name = foldName name := by
      intro h
      split at h
      · rcases ciMem_ciAdd_imp h with h | h
        · exact Or.inl h
        · exact Or.inr ⟨r, List.mem_cons_self r rest, h⟩
      · exact Or.inl h
    have hcons : selectSync snc maxlag maxLsn ready (r :: rest) cands syncs =
        if snc ≤ ((if (maxlag ≤ 0 ∨ (maxLsn : Int) - (r.lsn : Int) ≤ maxlag) then
            ciAdd cands r.application_name else cands)).length then
          ((if (maxlag ≤ 0 ∨ (maxLsn : Int) - (r.lsn : Int) ≤ maxlag) then
              ciAdd cands r.application_name else cands),
           (if (maxlag ≤ 0 ∨ (maxLsn : Int) - (r.lsn : Int) ≤ maxlag) ∧
                r.sync_state = "sync" ∧ ciKeyMem r.application_name ready then
              ciAdd syncs r.application_name else syncs))
        else
          selectSync snc maxlag maxLsn ready rest
            (if (maxlag ≤ 0 ∨ (maxLsn : Int) - (r.lsn : Int) ≤ maxlag) then
              ciAdd cands r.application_name else cands)
            (if (maxlag ≤ 0 ∨ (maxLsn : Int) - (r.lsn : Int) ≤ maxlag) ∧
                r.sync_state = "sync" ∧ ciKeyMem r.application_name ready then
              ciAdd syncs r.application_name else syncs) := rfl
    have hereOr : ∀ {acc : List String},
        (ciMem name acc ∨ foldName r.application_name = foldName name) →
        ciMem name acc ∨
          ∃ r' ∈ r :: rest, foldName r'.application_name = foldName name := by
      rintro acc (h | h)
      · exact Or.inl h
      · exact Or.inr ⟨r, List.mem_cons_self r rest, h⟩
    clear hcands hsyncs
    constructor
    · intro h
      rw [hcons] at h
      split at h <;> (try split at h) <;> (try split at h)
      all_goals
        first
        | exact Or.inl h
        | exact hereOr (ciMem_ciAdd_imp h)
        | (rcases (ih _ _).1 h with h2 | h2 <;>
            first
            | exact Or.inl h2
            | exact hereOr (ciMem_ciAdd_imp h2)
            | exact lift (Or.inr h2))
    · intro h
      rw [hcons] at h
      split at h <;> (try split at h) <;> (try split at h)
      all_goals
        first
        | exact Or.inl h
        | exact hereOr (ciMem_ciAdd_imp h)
        | (rcases (ih _ _).2 h with h2 | h2 <;>
            first
            | exact Or.inl h2
            | exact hereOr (ciMem_ciAdd_imp h2)
            | exact lift (Or.inr h2))

/-- One `current_state` step keeps a nosync-blocked name out of the ready
map and out of both output sets. -/
theorem nosync_step (pg : Postgresql) (cluster : Cluster) (st : SyncHandler)
    (name : String) (h : nosyncName cluster name = true)
    (hk : ¬ ciKeyMem name st.ready_replicas) :
    ¬ ciKeyMem name (current_state pg cluster st).state.ready_replicas ∧
    ¬ ciMem name (current_state pg cluster st).candidates ∧
    ¬ ciMem name (current_state pg cluster st).sync_nodes := by
  have hnorep : ∀ r ∈ buildReplicaList pg cluster,
      foldName r.application_name ≠ foldName name := by
    intro r hr
    have hr' : r ∈ admittedReplicas pg cluster := by
      unfold buildReplicaList at hr
      simpa using hr
    exact admittedReplicas_no_nosync pg cluster name h r hr'
  have hk1 : ¬ ciKeyMem name (handleSSNChange pg st).1.ready_replicas :=
    fun hmem => hk (handleSSNChange_ready_sub pg st hmem)
  have hready : ¬ ciKeyMem name (current_state pg cluster st).state.ready_replicas := by
    intro hmem
    have hrd : (current_state pg cluster st).state.ready_replicas =
        processReadiness cluster (handleSSNChange pg st).1.ssn_data
          (handleSSNChange pg st).1.primary_flush_lsn
          (handleSSNChange pg st).1.ready_replicas
          (buildReplicaList pg cluster) := rfl
    rw [hrd, processReadiness_keyMem] at hmem
    rcases hmem with hmem | ⟨r, hr, he, _⟩
    · exact hk1 hmem
    · exact hnorep r hr he
  refine ⟨hready, ?_, ?_⟩
  · intro hmem
    have hpair : (current_state pg cluster st).candidates =
        (selectSync
          (if pg.supports_multiple_sync then
            pg.global_config.synchronous_node_count else 1)
          pg.global_config.maximum_lag_on_syncnode
          (replicaListMaxLsn pg (buildReplicaList pg cluster))
          (processReadiness cluster (handleSSNChange pg st).1.ssn_data
            (handleSSNChange pg st).1.primary_flush_lsn
            (handleSSNChange pg st).1.ready_replicas
            (buildReplicaList pg cluster))
          ((buildReplicaList pg cluster).insertionSort nfR) [] []).1 := rfl
    rw [hpair] at hmem
    rcases (selectSync_subset _ _ _ _ name _ [] []).1 hmem with hmem | ⟨r, hr, he⟩
    · rcases hmem with ⟨y, hy, _⟩
      exact absurd hy (List.not_mem_nil y)
    · have hr' : r ∈ buildReplicaList pg cluster := by simpa using hr
      exact hnorep r hr' he
  · intro hmem
    have hpair : (current_state pg cluster st).sync_nodes =
        (selectSync
          (if pg.supports_multiple_sync then
            pg.global_config.synchronous_node_count else 1)
          pg.global_config.maximum_lag_on_syncnode
          (replicaListMaxLsn pg (buildReplicaList pg cluster))
          (processReadiness cluster (handleSSNChange pg st).1.ssn_data
            (handleSSNChange pg st).1.primary_flush_lsn
            (handleSSNChange pg st).1.ready_replicas
            (buildReplicaList pg cluster))
          ((buildReplicaList pg cluster).insertionSort nfR) [] []).2 := rfl
    rw [hpair] at hmem
    rcases (selectSync_subset _ _ _ _ name _ [] []).2 hmem with hmem | ⟨r, hr, he⟩
    · rcases hmem with ⟨y, hy, _⟩
      exact absurd hy (List.not_mem_nil y)
    · have hr' : r ∈ buildReplicaList pg cluster := by simpa using hr
      exact hnorep r hr' he

/-- C2: a member whose tags carry `nosync = true` never becomes a key of
`ready_replicas`, and never appears in the returned `candidates` or
`sync_nodes`, across any number of `current_state` invocations from the
initial state. -/
theorem nosync_never_appears (pg : Postgresql) (cluster : Cluster)
    (name : String) (h : nosyncName cluster name = true) :
    ∀ n : Nat,
      ¬ ciKeyMem name (iterState pg cluster n).ready_replicas ∧
      ¬ ciMem name (current_state pg cluster (iterState pg cluster n)).candidates ∧
      ¬ ciMem name (current_state pg cluster (iterState pg cluster n)).sync_nodes := by
  have hk : ∀ n, ¬ ciKeyMem name (iterState pg cluster n).ready_replicas := by
    intro n
    induction n with
    | zero =>
      rintro ⟨p, hp, _⟩
      exact absurd hp (List.not_mem_nil p)
    | succ n ihn =>
      exact (nosync_step pg cluster (iterState pg cluster n) name h ihn).1
  intro n
  have step := nosync_step pg cluster (iterState pg cluster n) name h (hk n)
  exact ⟨hk n, step.2.1, step.2.2⟩

/-- Witness for C2: after one and two invocations on a cluster where `c` is
tagged `nosync`, the name `c` is nowhere. -/
theorem nosync_never_appears_witness :
    (¬ ciKeyMem "c" (iterState c2Pg c2Cluster 1).ready_replicas ∧
      ¬ ciMem "c" (current_state c2Pg c2Cluster (iterState c2Pg c2Cluster 1)).candidates ∧
      ¬ ciMem "c" (current_state c2Pg c2Cluster (iterState c2Pg c2Cluster 1)).sync_nodes) :=
  nosync_never_appears c2Pg c2Cluster "c" (by decide) 1

/-! ### Claim C6: list-shape parse errors -/

theorem badFrom_cons_elim {i : Nat} {t : TokType × List Char}
    {rest : List (TokType × List Char)} (hbad : badFrom i (t :: rest)) :
    (i % 2 = 1 ∧ (rest = [] ∨ t.1 ≠ TokType.comma)) ∨
    (i % 2 = 0 ∧ nameTokB t.1 = false) ∨
    badFrom (i + 1) rest := by
  rcases hbad with ⟨j, hj, hcase⟩
  match j, hj, hcase with
  | 0, hj, hcase =>
    have ht0 : tokTypeAt (t :: rest) 0 = t.1 := rfl
    rw [ht0] at hcase
    rcases hcase with ⟨hp, hor⟩ | ⟨hp, hname⟩
    · refine Or.inl ⟨by omega, ?_⟩
      rcases hor with hor | hor
      · simp only [List.length_cons] at hor
        exact Or.inl (List.length_eq_zero.1 (by omega))
      · exact Or.inr hor
    · exact Or.inr (Or.inl ⟨by omega, hname⟩)
  | k + 1, hj, hcase =>
    have hlt : k < rest.length := by
      simp only [List.length_cons] at hj
      omega
    have htk : tokTypeAt (t :: rest) (k + 1) = tokTypeAt rest k := rfl
    rw [htk] at hcase
    refine Or.inr (Or.inr ⟨k, hlt, ?_⟩)
    simp only [List.length_cons] at hcase
    rcases hcase with ⟨hp, hor⟩ | ⟨hp, hname⟩
    · refine Or.inl ⟨by omega, ?_⟩
      rcases hor with hor | hor
      · exact Or.inl (by omega)
      · exact Or.inr hor
    · exact Or.inr ⟨by omega, hname⟩

/-- The member-list loop raises on every list that is malformed for its
starting index. -/
theorem parseSynclist_none_of_bad :
    ∀ (l : List (TokType × List Char)) (i : Nat) (star : Bool)
      (ms : List String), badFrom i l → parseSynclist i star ms l = none := by
  intro l
  induction l with
  | nil =>
    intro i star ms hbad
    rcases hbad with ⟨j, hj, _⟩
    exact absurd hj (by simp)
  | cons t rest ih =>
    intro i star ms hbad
    rcases t with ⟨ty, lex⟩
    rcases badFrom_cons_elim hbad with ⟨hp, hor⟩ | ⟨hp, hname⟩ | hbad'
    · simp only [parseSynclist, if_pos hp]
      rcases hor with rfl | hor
      · rfl
      · by_cases hrest : rest = []
        · rw [if_pos hrest]
        · rw [if_neg hrest, if_neg hor]
    · have hp1 : ¬ i % 2 = 1 := by omega
      simp only [parseSynclist, if_neg hp1]
      cases ty <;> first
        | rfl
        | exact absurd hname (by simp [nameTokB])
    · by_cases hp : i % 2 = 1
      · simp only [parseSynclist, if_pos hp]
        by_cases hrest : rest = []
        · rw [if_pos hrest]
        · rw [if_neg hrest]
          by_cases hc : ty = TokType.comma
          · rw [if_pos hc]
            exact ih _ _ _ hbad'
          · rw [if_neg hc]
      · simp only [parseSynclist, if_neg hp]
        cases ty <;> first
          | rfl
          | exact ih _ _ _ hbad'

theorem badFrom_zero_of_badSynclist {l : List (TokType × List Char)}
    (h : badSynclist l) : badFrom 0 l := by
  have hat : ∀ j : Fin l.length, tokTypeAt l j.val = (l.get j).1 := by
    intro j
    unfold tokTypeAt
    rw [List.get?_eq_get j.isLt]
    rfl
  rcases h with ⟨j, hodd, hne⟩ | hlast | ⟨j, heven, hname⟩
  · refine ⟨j.val, j.isLt, Or.inl ⟨by omega, Or.inr ?_⟩⟩
    rw [hat j]
    exact hne
  · have hne : l ≠ [] := by
      intro hnil
      rw [hnil] at hlast
      simp at hlast
    have hlen : 0 < l.length := List.length_pos.2 hne
    have hat' : tokTypeAt l (l.length - 1) = TokType.comma := by
      unfold tokTypeAt
      rw [← List.getLast?_eq_get? l]
      rcases Option.map_eq_some'.1 hlast with ⟨p, hp, hp1⟩
      rw [hp]
      exact hp1
    by_cases hpar : (l.length - 1) % 2 = 1
    · exact ⟨l.length - 1, by omega, Or.inl ⟨by omega, Or.inl rfl⟩⟩
    · refine ⟨l.length - 1, by omega, Or.inr ⟨by omega, ?_⟩⟩
      rw [hat']
      rfl
  · refine ⟨j.val, j.isLt, Or.inr ⟨by omega, ?_⟩⟩
    rw [hat j]
    exact hname

/-- C6: `parse_sync_standby_names` raises for every member list in which
some odd position holds a non-comma token, or the final token is a comma,
or some even position holds a token other than IDENT, FIRST, ANY, STAR or
DQUOT; in particular the five inputs from the doctests all raise. -/
theorem parse_rejects_malformed_lists :
    (∀ value : String, badSynclist (ssnHeader (tokenize value)).2.2 →
      parse_sync_standby_names value = none) ∧
    parse_sync_standby_names "1" = none ∧
    parse_sync_standby_names "a," = none ∧
    parse_sync_standby_names "ANY 4(\"a\" b,\"c c\")" = none ∧
    parse_sync_standby_names "FIRST 4(\"a\",)" = none ∧
    parse_sync_standby_names "2 (,)" = none := by
  refine ⟨?_, by decide, by decide, by decide, by decide, by decide⟩
  intro value hbad
  have hnone : parseSynclist 0 false [] (ssnHeader (tokenize value)).2.2 = none :=
    parseSynclist_none_of_bad _ 0 false [] (badFrom_zero_of_badSynclist hbad)
  by_cases ht : tokenize value = []
  · exfalso
    rw [ht] at hbad
    rcases hbad with ⟨⟨j, hj⟩, _⟩ | hlast | ⟨⟨j, hj⟩, _⟩
    · exact absurd hj (by simp [ssnHeader])
    · simp [ssnHeader] at hlast
    · exact absurd hj (by simp [ssnHeader])
  · unfold parse_sync_standby_names
    rw [if_neg ht]
    simp only [hnone, Option.map_none']

/-- Witness for C6: a list with a comma at an even position is rejected. -/
theorem parse_rejects_malformed_lists_witness :
    parse_sync_standby_names "a,," = none :=
  parse_rejects_malformed_lists.1 "a,," (by decide)

/-! ### Claims C3 and C10: tokenizer lemmas -/

theorem matchFirstKw_none {c : Char} (cs : List Char)
    (h : ¬ c.toLower = 'f') : matchFirstKw (c :: cs) = none := by
  match cs with
  | [] => rfl
  | [_] => rfl
  | [_, _] => rfl
  | [_, _, _] => rfl
  | c2 :: c3 :: c4 :: c5 :: r =>
    show (if c.toLower = 'f' ∧ c2.toLower = 'i' ∧ c3.toLower = 'r' ∧
        c4.toLower = 's' ∧ c5.toLower = 't' then
        some (([c, c2, c3, c4, c5] : List Char), r) else none) = none
    rw [if_neg]
    intro hc
    exact h hc.1

theorem matchAnyKw_none {c : Char} (cs : List Char)
    (h : ¬ c.toLower = 'a') : matchAnyKw (c :: cs) = none := by
  match cs with
  | [] => rfl
  | [_] => rfl
  | c2 :: c3 :: r =>
    show (if c.toLower = 'a' ∧ c2.toLower = 'n' ∧ c3.toLower = 'y' then
        some (([c, c2, c3] : List Char), r) else none) = none
    rw [if_neg]
    intro hc
    exact h hc.1

theorem matchFirstKw_eq {l lex rest : List Char}
    (h : matchFirstKw l = some (lex, rest)) :
    l = lex ++ rest ∧ lex.length = 5 := by
  match l with
  | [] => exact absurd h (by simp [matchFirstKw])
  | [_] => exact absurd h (by simp [matchFirstKw])
  | [_, _] => exact absurd h (by simp [matchFirstKw])
  | [_, _, _] => exact absurd h (by simp [matchFirstKw])
  | [_, _, _, _] => exact absurd h (by simp [matchFirstKw])
  | c1 :: c2 :: c3 :: c4 :: c5 :: r =>
    have h' : (if c1.toLower = 'f' ∧ c2.toLower = 'i' ∧ c3.toLower = 'r' ∧
        c4.toLower = 's' ∧ c5.toLower = 't' then
        some (([c1, c2, c3, c4, c5] : List Char), r) else none) =
        some (lex, rest) := h
    by_cases hcond : c1.toLower = 'f' ∧ c2.toLower = 'i' ∧ c3.toLower = 'r' ∧
        c4.toLower = 's' ∧ c5.toLower = 't'
    · rw [if_pos hcond] at h'
      cases h'
      exact ⟨rfl, rfl⟩
    · rw [if_neg hcond] at h'
      exact absurd h' (by simp)

theorem matchAnyKw_eq {l lex rest : List Char}
    (h : matchAnyKw l = some (lex, rest)) :
    l = lex ++ rest ∧ lex.length = 3 ∧
      ∃ c1 r1, l = c1 :: r1 ∧ c1.toLower = 'a' := by
  match l with
  | [] => exact absurd h (by simp [matchAnyKw])
  | [_] => exact absurd h (by simp [matchAnyKw])
  | c1 :: c2 :: c3 :: r =>
    have h' : (if c1.toLower = 'a' ∧ c2.toLower = 'n' ∧ c3.toLower = 'y' then
        some (([c1, c2, c3] : List Char), r) else none) =
        some (lex, rest) := h
    by_cases hcond : c1.toLower = 'a' ∧ c2.toLower = 'n' ∧ c3.toLower = 'y'
    · rw [if_pos hcond] at h'
      cases h'
      exact ⟨rfl, rfl, c1, _, rfl, hcond.1⟩
    · rw [if_neg hcond] at h'
      exact absurd h' (by simp)

theorem dquotScan_cons_ne {c : Char} (l inner rest : List Char)
    (hc : ¬ c = '"') (hd : dquotScan l = some (inner, rest)) :
    dquotScan (c :: l) = some (c :: inner, rest) := by
  conv_lhs => rw [dquotScan.eq_def]
  dsimp only
  rw [if_neg hc, hd]

theorem dquotScan_escape : ∀ w : List Char,
    dquotScan (escapeQuotes w ++ ['"']) = some (escapeQuotes w, []) := by
  intro w
  induction w with
  | nil => rfl
  | cons c r ih =>
    by_cases hc : c = '"'
    · subst hc
      simp [escapeQuotes, dquotScan, List.cons_append, ih]
    · rw [show escapeQuotes (c :: r) = c :: escapeQuotes r by
        simp [escapeQuotes, hc], List.cons_append,
        dquotScan_cons_ne _ _ _ hc ih]

theorem unescape_cons_ne {c : Char} (l : List Char) (hc : ¬ c = '"') :
    unescapeQuotes (c :: l) = c :: unescapeQuotes l := by
  match l with
  | [] => rfl
  | d :: r =>
    show (if c = '"' ∧ d = '"' then '"' :: unescapeQuotes r
      else c :: unescapeQuotes (d :: r)) = c :: unescapeQuotes (d :: r)
    rw [if_neg]
    intro hand
    exact hc hand.1

theorem unescape_escape : ∀ w : List Char,
    unescapeQuotes (escapeQuotes w) = w := by
  intro w
  induction w with
  | nil => rfl
  | cons c r ih =>
    by_cases hc : c = '"'
    · subst hc
      simp [escapeQuotes, unescapeQuotes, ih]
    · rw [show escapeQuotes (c :: r) = c :: escapeQuotes r by
        simp [escapeQuotes, hc], unescape_cons_ne _ hc, ih]

theorem scan1_dquot {tail inner rest : List Char}
    (hd : dquotScan tail = some (inner, rest)) :
    scan1 ('"' :: tail) =
      some (TokType.dquot, '"' :: (inner ++ ['"']), rest) := by
  have h1 : matchFirstKw ('"' :: tail) = none := matchFirstKw_none tail (by decide)
  have h2 : matchAnyKw ('"' :: tail) = none := matchAnyKw_none tail (by decide)
  have h3 : isPySpace '"' = false := by decide
  have h4 : isIdentStart '"' = false := by decide
  simp [scan1, h1, h2, h3, h4, hd]

theorem tokenize_single (x : String) (t : TokType) (hts : ¬ t = TokType.space)
    (c : Char) (cs : List Char) (hdata : x.data = c :: cs)
    (hs : scan1 (c :: cs) = some (t, c :: cs, [])) :
    tokenize x = [(t, c :: cs)] := by
  unfold tokenize
  rw [hdata]
  simp only [List.length_cons]
  rw [show tokenizeAux (cs.length + 1) (c :: cs) = [(t, c :: cs)] by
    simp [tokenizeAux, hs]]
  simp [List.filter, hts]

theorem ssnHeader_single (t : TokType) (lex : List Char) :
    ssnHeader [(t, lex)] = ("priority", 1, [(t, lex)]) := by
  unfold ssnHeader
  rw [if_neg, if_neg, if_neg]
  · rintro ⟨h1, _⟩
    simp [List.take] at h1
  · rintro ⟨h1, _⟩
    simp [List.take] at h1
  · rintro ⟨h1, _⟩
    simp [List.take] at h1

theorem ciAdd_nil (m : String) : ciAdd [] m = [m] := by
  unfold ciAdd
  rw [if_neg]
  · rfl
  · rintro ⟨y, hy, _⟩
    exact absurd hy (List.not_mem_nil y)

/-- Parsing any single name token yields the priority-1 singleton SSN. -/
theorem parse_of_single_token (x : String) (t : TokType) (lex : List Char)
    (htok : tokenize x = [(t, lex)])
    (hname : t = TokType.ident ∨ t = TokType.first ∨ t = TokType.any) :
    parse_sync_standby_names x =
      some ⟨"priority", false, 1, [String.mk lex]⟩ := by
  unfold parse_sync_standby_names
  rw [htok, if_neg (by simp), ssnHeader_single]
  have hlist : parseSynclist 0 false [] [(t, lex)] =
      some (false, [String.mk lex]) := by
    rcases hname with rfl | rfl | rfl <;>
      simp [parseSynclist, ciAdd_nil]
  simp only []
  rw [hlist]
  rfl

/-- Parsing a single double-quoted token yields the priority-1 singleton
with the unescaped content as the member. -/
theorem parse_of_single_dquot (x : String) (inner : List Char)
    (htok : tokenize x = [(TokType.dquot, '"' :: (inner ++ ['"']))]) :
    parse_sync_standby_names x =
      some ⟨"priority", false, 1, [String.mk (unescapeQuotes inner)]⟩ := by
  unfold parse_sync_standby_names
  rw [htok, if_neg (by simp), ssnHeader_single]
  have hstrip : (('"' :: (inner ++ ['"'])).drop 1).dropLast = inner := by
    simp only [List.drop_one, List.tail_cons]
    exact List.dropLast_concat
  have hlist : parseSynclist 0 false [] [(TokType.dquot, '"' :: (inner ++ ['"']))] =
      some (false, [String.mk (unescapeQuotes inner)]) := by
    simp [parseSynclist, ciAdd_nil, hstrip]
  simp only []
  rw [hlist]
  rfl

/-- Round-trip of the psycopg quoting rule: a double-quoted emitted name is
always reparsed to exactly the singleton of the original name. -/
theorem parse_psycopgQuoteIdent (x : String) :
    parse_sync_standby_names (psycopgQuoteIdent x) =
      some ⟨"priority", false, 1, [x]⟩ := by
  have hdata : (psycopgQuoteIdent x).data = '"' :: (escapeQuotes x.data ++ ['"']) := rfl
  have hscan : scan1 ('"' :: (escapeQuotes x.data ++ ['"'])) =
      some (TokType.dquot, '"' :: (escapeQuotes x.data ++ ['"']), []) :=
    scan1_dquot (dquotScan_escape x.data)
  have htok : tokenize (psycopgQuoteIdent x) =
      [(TokType.dquot, '"' :: (escapeQuotes x.data ++ ['"']))] :=
    tokenize_single _ _ (by simp) _ _ hdata hscan
  rw [parse_of_single_dquot _ _ htok, unescape_escape]

theorem cont_of_start {c : Char} (h : isIdentStart c = true) :
    isIdentCont c = true := by
  simp only [isIdentStart, Bool.or_eq_true, beq_iff_eq] at h
  rcases h with h | rfl
  · simp [isIdentCont, h]
  · rfl

theorem not_space_of_cont {c : Char} (h : isIdentCont c = true) :
    isPySpace c = false := by
  cases hs : isPySpace c
  · rfl
  · exfalso
    simp only [isPySpace, Bool.or_eq_true, beq_iff_eq] at hs
    rcases hs with ((((rfl | rfl) | rfl) | rfl) | rfl) | rfl <;>
      exact absurd h (by decide)

theorem cont_ne_quote {c : Char} (h : isIdentCont c = true) : ¬ c = '"' := by
  rintro rfl
  exact absurd h (by decide)

theorem cont_ne_star {c : Char} (h : isIdentCont c = true) : ¬ c = '*' := by
  rintro rfl
  exact absurd h (by decide)

theorem digit_or_dollar_of_cont {c : Char} (hcont : isIdentCont c = true)
    (hst : isIdentStart c = false) : c.isDigit = true ∨ c = '$' := by
  simp only [isIdentCont, Bool.or_eq_true, beq_iff_eq] at hcont
  simp only [isIdentStart, Bool.or_eq_false_iff, beq_eq_false_iff_ne, ne_eq] at hst
  rcases hcont with ((h | h) | h) | h
  · exact absurd h (by simp [hst.1])
  · exact Or.inl h
  · exact absurd h hst.2
  · exact Or.inr h

theorem takeWhile_of_all {p : Char → Bool} :
    ∀ {l : List Char}, l.all p = true → l.takeWhile p = l := by
  intro l
  induction l with
  | nil => intro _; rfl
  | cons c cs ih =>
    intro h
    rw [List.all_cons, Bool.and_eq_true] at h
    rw [List.takeWhile_cons_of_pos h.1, ih h.2]

theorem dropWhile_of_all {p : Char → Bool} :
    ∀ {l : List Char}, l.all p = true → l.dropWhile p = [] := by
  intro l
  induction l with
  | nil => intro _; rfl
  | cons c cs ih =>
    intro h
    rw [List.all_cons, Bool.and_eq_true] at h
    rw [List.dropWhile_cons_of_pos h.1, ih h.2]

theorem all_dropWhile {p q : Char → Bool} :
    ∀ (l : List Char), l.all p = true → ((l.dropWhile q).all p) = true := by
  intro l
  induction l with
  | nil => intro _; rfl
  | cons c cs ih =>
    intro h
    have h' := h
    rw [List.all_cons, Bool.and_eq_true] at h'
    by_cases hq : q c = true
    · rw [List.dropWhile_cons_of_pos hq]
      exact ih h'.2
    · rw [List.dropWhile_cons_of_neg hq]
      exact h

theorem scan1_of_matchFirst {c : Char} {cs lex rest : List Char}
    (h : matchFirstKw (c :: cs) = some (lex, rest)) :
    scan1 (c :: cs) = some (TokType.first, lex, rest) := by
  simp [scan1, h]

theorem scan1_of_matchAny {c : Char} {cs lex rest : List Char}
    (h1 : matchFirstKw (c :: cs) = none)
    (h2 : matchAnyKw (c :: cs) = some (lex, rest)) :
    scan1 (c :: cs) = some (TokType.any, lex, rest) := by
  simp [scan1, h1, h2]

theorem scan1_ident {c : Char} {cs : List Char}
    (h1 : matchFirstKw (c :: cs) = none) (h2 : matchAnyKw (c :: cs) = none)
    (hst : isIdentStart c = true) (hall : cs.all isIdentCont = true) :
    scan1 (c :: cs) = some (TokType.ident, c :: cs, []) := by
  have hsp : isPySpace c = false := not_space_of_cont (cont_of_start hst)
  simp [scan1, h1, h2, hsp, hst, takeWhile_of_all hall, dropWhile_of_all hall]

/-- An all-identifier-characters name with no keyword-splitting shape
tokenizes to one token and parses to the priority-1 singleton of itself. -/
theorem parse_safe_ident (x : String) (hid : identForm x.data = true)
    (hkw : kwBadName x = false) :
    parse_sync_standby_names x = some ⟨"priority", false, 1, [x]⟩ := by
  rcases hx : x.data with _ | ⟨c, cs⟩
  · rw [hx] at hid
    exact absurd hid (by decide)
  · rw [hx] at hid
    have hid' : (isIdentStart c && cs.all isIdentCont) = true := hid
    rw [Bool.and_eq_true] at hid'
    obtain ⟨hst, hall⟩ := hid'
    have hallx : (c :: cs).all isIdentCont = true := by
      rw [List.all_cons, Bool.and_eq_true]
      exact ⟨cont_of_start hst, hall⟩
    have hmkx : String.mk (c :: cs) = x := by
      rw [← hx]
    unfold kwBadName at hkw
    rw [hx] at hkw
    rcases Bool.or_eq_false_iff.1 hkw with ⟨hkw1, hkw2⟩
    rcases hm1 : matchFirstKw (c :: cs) with _ | ⟨lex, rest⟩
    · rcases hm2 : matchAnyKw (c :: cs) with _ | ⟨lex, rest⟩
      · have hscan := scan1_ident hm1 hm2 hst hall
        have htok := tokenize_single x TokType.ident (by simp) c cs hx hscan
        rw [parse_of_single_token x TokType.ident (c :: cs) htok (Or.inl rfl), hmkx]
      · rw [hm2] at hkw2
        rcases matchAnyKw_eq hm2 with ⟨heq, hlen, _⟩
        have hrall : rest.all isIdentCont = true := by
          rw [heq, List.all_append, Bool.and_eq_true] at hallx
          exact hallx.2
        have hrnil : rest = [] := by
          by_contra hne
          have hie : rest.isEmpty = false := by
            rcases rest with _ | ⟨r, rs⟩
            · exact absurd rfl hne
            · rfl
          simp only [kwSuffixBad, hie, hrall] at hkw2
          simp at hkw2
        rw [hrnil, List.append_nil] at heq
        have hscan := scan1_of_matchAny hm1 hm2
        rw [hrnil, ← heq] at hscan
        have htok := tokenize_single x TokType.any (by simp) c cs hx hscan
        rw [parse_of_single_token x TokType.any (c :: cs) htok
          (Or.inr (Or.inr rfl)), hmkx]
    · rw [hm1] at hkw1
      rcases matchFirstKw_eq hm1 with ⟨heq, hlen⟩
      have hrall : rest.all isIdentCont = true := by
        rw [heq, List.all_append, Bool.and_eq_true] at hallx
        exact hallx.2
      have hrnil : rest = [] := by
        by_contra hne
        have hie : rest.isEmpty = false := by
          rcases rest with _ | ⟨r, rs⟩
          · exact absurd rfl hne
          · rfl
        simp only [kwSuffixBad, hie, hrall] at hkw1
        simp at hkw1
      rw [hrnil, List.append_nil] at heq
      have hscan := scan1_of_matchFirst hm1
      rw [hrnil, ← heq] at hscan
      have htok := tokenize_single x TokType.first (by simp) c cs hx hscan
      rw [parse_of_single_token x TokType.first (c :: cs) htok
        (Or.inr (Or.inl rfl)), hmkx]

/-- C3, counterexample: `firstly` is a member of a successfully parsed SSN,
`quote_ident` leaves it unquoted because it matches the safe identifier
pattern, and reparsing the emitted name raises instead of yielding the
singleton. -/
theorem quote_ident_roundtrip_broken :
    parse_sync_standby_names "\"firstly\"" =
      some ⟨"priority", false, 1, ["firstly"]⟩ ∧
    "firstly" ∈ (SSN.mk "priority" false 1 ["firstly"]).members ∧
    quote_ident "firstly" = "firstly" ∧
    parse_sync_standby_names (quote_ident "firstly") = none := by
  refine ⟨by decide, by decide, by decide, by decide⟩

/-- C3, amended: for every name in the members of a successfully parsed
SSN, except those that the tokenizer splits apart (an unquoted `first`/`any`
keyword followed by more identifier characters) and those matching the safe
identifier pattern only through its trailing-newline `$` quirk, quoting and
reparsing yields exactly the singleton of the original name. -/
theorem quote_ident_roundtrip (v : String) (ssn : SSN) (x : String)
    (hv : parse_sync_standby_names v = some ssn) (hx : x ∈ ssn.members)
    (hkw : kwBadName x = false)
    (hnl : safeIdentStr x = true → identForm x.data = true) :
    parse_sync_standby_names (quote_ident x) =
      some ⟨"priority", false, 1, [x]⟩ := by
  unfold quote_ident
  by_cases hs : safeIdentStr x = true
  · rw [if_pos hs]
    exact parse_safe_ident x (hnl hs) hkw
  · rw [if_neg hs]
    exact parse_psycopgQuoteIdent x

/-- Witness for C3 at the quoted name `a b`. -/
theorem quote_ident_roundtrip_witness :
    parse_sync_standby_names (quote_ident "a b") =
      some ⟨"priority", false, 1, ["a b"]⟩ :=
  quote_ident_roundtrip "\"a b\"" ⟨"priority", false, 1, ["a b"]⟩ "a b"
    (by decide) (by decide) (by decide) (by decide)

theorem scan1_cont {c : Char} {cs : List Char}
    (hall : (c :: cs).all isIdentCont = true) :
    ∃ t lex rest, scan1 (c :: cs) = some (t, lex, rest) ∧
      rest.all isIdentCont = true ∧ rest.length < (c :: cs).length ∧
      ¬ t = TokType.space ∧ ¬ t = TokType.comma ∧
      ¬ t = TokType.parenstart ∧ ¬ t = TokType.parenend := by
  have hall' := hall
  rw [List.all_cons, Bool.and_eq_true] at hall'
  obtain ⟨hc, hcs⟩ := hall'
  rcases hm1 : matchFirstKw (c :: cs) with _ | ⟨lex, rest⟩
  · rcases hm2 : matchAnyKw (c :: cs) with _ | ⟨lex, rest⟩
    · by_cases hst : isIdentStart c = true
      · exact ⟨TokType.ident, c :: cs, [],
          scan1_ident hm1 hm2 hst hcs, rfl, by simp,
          by simp, by simp, by simp, by simp⟩
      · have hst' : isIdentStart c = false := by
          cases h : isIdentStart c
          · rfl
          · exact absurd h hst
        have hsp : isPySpace c = false := not_space_of_cont hc
        rcases digit_or_dollar_of_cont hc hst' with hd | hd
        · refine ⟨TokType.num, c :: cs.takeWhile Char.isDigit,
            cs.dropWhile Char.isDigit, ?_, all_dropWhile cs hcs, ?_,
            by simp, by simp, by simp, by simp⟩
          · simp [scan1, hm1, hm2, hsp, hst', cont_ne_quote hc,
              cont_ne_star hc, hd]
          · have := (List.dropWhile_sublist (l := cs) Char.isDigit).length_le
            simp only [List.length_cons]
            omega
        · subst hd
          refine ⟨TokType.junk, ['$'], cs, ?_, hcs, by simp,
            by simp, by simp, by simp, by simp⟩
          have e1 : isPySpace '$' = false := by decide
          have e2 : isIdentStart '$' = false := by decide
          have e3 : ¬ ('$' : Char) = '"' := by decide
          have e4 : ¬ ('$' : Char) = '*' := by decide
          have e5 : Char.isDigit '$' = false := by decide
          have e6 : ¬ ('$' : Char) = ',' := by decide
          have e7 : ¬ ('$' : Char) = '(' := by decide
          have e8 : ¬ ('$' : Char) = ')' := by decide
          simp [scan1, hm1, hm2, e1, e2, e3, e4, e5, e6, e7, e8]
    · rcases matchAnyKw_eq hm2 with ⟨heq, hlen, _⟩
      refine ⟨TokType.any, lex, rest, scan1_of_matchAny hm1 hm2, ?_, ?_,
        by simp, by simp, by simp, by simp⟩
      · rw [heq, List.all_append, Bool.and_eq_true] at hall
        exact hall.2
      · have : (c :: cs).length = lex.length + rest.length := by
          rw [heq, List.length_append]
        omega
  · rcases matchFirstKw_eq hm1 with ⟨heq, hlen⟩
    refine ⟨TokType.first, lex, rest, scan1_of_matchFirst hm1, ?_, ?_,
      by simp, by simp, by simp, by simp⟩
    · rw [heq, List.all_append, Bool.and_eq_true] at hall
      exact hall.2
    · have : (c :: cs).length = lex.length + rest.length := by
        rw [heq, List.length_append]
      omega

/-- Tokenizing a run of identifier characters yields a nonempty stream with
no space, comma or parenthesis tokens. -/
theorem tokenizeAux_cont : ∀ (fuel : Nat) (cs : List Char),
    cs.all isIdentCont = true → cs.length ≤ fuel →
    (∀ tl ∈ tokenizeAux fuel cs, ¬ tl.1 = TokType.space ∧
      ¬ tl.1 = TokType.comma ∧ ¬ tl.1 = TokType.parenstart ∧
      ¬ tl.1 = TokType.parenend) ∧
    (cs ≠ [] → tokenizeAux fuel cs ≠ []) := by
  intro fuel
  induction fuel with
  | zero =>
    intro cs hall hlen
    have : cs = [] := List.length_eq_zero.1 (by omega)
    subst this
    exact ⟨by intro tl htl; exact absurd htl (List.not_mem_nil tl),
      fun h => absurd rfl h⟩
  | succ fuel ih =>
    intro cs hall hlen
    rcases cs with _ | ⟨c, cs'⟩
    · exact ⟨by intro tl htl; exact absurd htl (List.not_mem_nil tl),
        fun h => absurd rfl h⟩
    · rcases scan1_cont hall with ⟨t, lex, rest, hs, hra, hrl, ht⟩
      have hstep : tokenizeAux (fuel + 1) (c :: cs') =
          (t, lex) :: tokenizeAux fuel rest := by
        simp [tokenizeAux, hs]
      rw [hstep]
      have hrest := ih rest hra (by simp only [List.length_cons] at hrl hlen; omega)
      constructor
      · intro tl htl
        rcases List.mem_cons.1 htl with rfl | htl
        · exact ht
        · exact hrest.1 tl htl
      · intro _
        simp

/-- When no token is a closing parenthesis, the header dispatch falls
through to the plain priority-1 list. -/
theorem ssnHeader_fallthrough (tokens : List (TokType × List Char))
    (hne : tokens ≠ [])
    (h : ∀ tl ∈ tokens, ¬ tl.1 = TokType.parenend) :
    ssnHeader tokens = ("priority", 1, tokens) := by
  have hlast : (tokens.map Prod.fst).getLast? ≠ some TokType.parenend := by
    rw [List.getLast?_map, List.getLast?_eq_getLast tokens hne]
    intro hcon
    have hmem := List.getLast_mem hne
    have := h _ hmem
    simp only [Option.map_some'] at hcon
    exact this (Option.some_inj.1 hcon)
  unfold ssnHeader
  rw [if_neg, if_neg, if_neg]
  · rintro ⟨_, hcon⟩
    exact hlast hcon
  · rintro ⟨_, hcon⟩
    exact hlast hcon
  · rintro ⟨_, hcon⟩
    exact hlast hcon

/-- A keyword token followed by a non-comma token makes the member-list
loop raise at position 1. -/
theorem parseSynclist_keyword_head (t0 : TokType) (lex : List Char)
    (t1 : TokType × List Char) (ts : List (TokType × List Char))
    (ht0 : t0 = TokType.first ∨ t0 = TokType.any)
    (hc : ¬ t1.1 = TokType.comma) :
    parseSynclist 0 false [] ((t0, lex) :: t1 :: ts) = none := by
  rcases t1 with ⟨ty1, lex1⟩
  have hstep : ∀ ms : List String,
      parseSynclist 1 false ms ((ty1, lex1) :: ts) = none := by
    intro ms
    rw [parseSynclist.eq_def]
    dsimp only
    rw [if_pos (by decide)]
    by_cases hts : ts = []
    · rw [if_pos hts]
    · rw [if_neg hts, if_neg (fun hcon => hc hcon)]
  rcases ht0 with rfl | rfl
  all_goals
    rw [parseSynclist.eq_def]
    dsimp only
    rw [if_neg (by decide)]
    exact hstep _

/-- Shared engine for the keyword-splitting rejection: if the tokenizer's
first step yields a keyword token followed by a nonempty all-identifier
remainder, the whole string fails to parse, and the token stream starts with
the split-off keyword token. -/
theorem kwSplit_core (x : String) (lex rest0 : List Char) (t0 : TokType)
    (c : Char) (cs : List Char) (hx : x.data = c :: cs)
    (hscan : scan1 (c :: cs) = some (t0, lex, rest0))
    (ht0 : t0 = TokType.first ∨ t0 = TokType.any)
    (hlen : rest0.length ≤ cs.length)
    (hra : rest0.all isIdentCont = true) (hrne : rest0 ≠ []) :
    parse_sync_standby_names x = none ∧
    ∃ rest, tokenize x = (t0, lex) :: rest ∧ rest ≠ [] := by
  have hts : ¬ t0 = TokType.space := by
    rcases ht0 with rfl | rfl <;> simp
  have hgood := tokenizeAux_cont cs.length rest0 hra hlen
  have hstep : tokenizeAux x.data.length x.data =
      (t0, lex) :: tokenizeAux cs.length rest0 := by
    rw [hx]
    simp [tokenizeAux, hscan]
  have htok : tokenize x = (t0, lex) :: tokenizeAux cs.length rest0 := by
    unfold tokenize
    rw [hstep, List.filter_cons_of_pos, List.filter_eq_self.mpr]
    · intro tl htl
      simpa using (hgood.1 tl htl).1
    · simpa using hts
  have hrrne : tokenizeAux cs.length rest0 ≠ [] := hgood.2 hrne
  refine ⟨?_, tokenizeAux cs.length rest0, htok, hrrne⟩
  have hheader : ssnHeader ((t0, lex) :: tokenizeAux cs.length rest0) =
      ("priority", 1, (t0, lex) :: tokenizeAux cs.length rest0) := by
    apply ssnHeader_fallthrough _ (by simp)
    intro tl htl
    rcases List.mem_cons.1 htl with rfl | htl
    · rcases ht0 with rfl | rfl <;> simp
    · exact (hgood.1 tl htl).2.2.2
  rcases hrr : tokenizeAux cs.length rest0 with _ | ⟨t1, ts⟩
  · exact absurd hrr hrrne
  · have hnone : parseSynclist 0 false [] ((t0, lex) :: t1 :: ts) = none := by
      apply parseSynclist_keyword_head _ _ _ _ ht0
      have ht1 : t1 ∈ tokenizeAux cs.length rest0 := by
        rw [hrr]
        exact List.mem_cons_self t1 ts
      exact (hgood.1 t1 ht1).2.1
    rw [hrr] at hheader
    unfold parse_sync_standby_names
    rw [htok, hrr, if_neg (by simp), hheader]
    dsimp only
    rw [hnone]
    rfl

/-- C10: an unquoted name beginning with the keyword `first` or `any`
followed by further identifier characters is split by the tokenizer into a
keyword token plus more tokens, so parsing rejects it; the same name is
accepted exactly as itself when double-quoted. -/
theorem keyword_prefix_split (x : String) (h : kwBadName x = true) :
    parse_sync_standby_names x = none ∧
    (∃ t lex rest, tokenize x = (t, lex) :: rest ∧
      (t = TokType.first ∨ t = TokType.any) ∧ rest ≠ []) ∧
    parse_sync_standby_names (psycopgQuoteIdent x) =
      some ⟨"priority", false, 1, [x]⟩ := by
  unfold kwBadName at h
  rw [Bool.or_eq_true] at h
  rcases h with h | h
  · rcases hm : matchFirstKw x.data with _ | ⟨lex, rest0⟩
    · rw [hm] at h
      exact absurd h (by simp [kwSuffixBad])
    · rw [hm] at h
      simp only [kwSuffixBad, Bool.and_eq_true] at h
      obtain ⟨hne', hall⟩ := h
      have hrne : rest0 ≠ [] := by
        rintro rfl
        simp at hne'
      rcases matchFirstKw_eq hm with ⟨heq, hlen5⟩
      rcases hd : x.data with _ | ⟨c, cs⟩
      · rw [hd] at hm
        exact absurd hm (by simp [matchFirstKw])
      · rw [hd] at hm
        have hscan := scan1_of_matchFirst hm
        have hlen : rest0.length ≤ cs.length := by
          rw [hd] at heq
          have : (c :: cs).length = lex.length + rest0.length := by
            rw [heq, List.length_append]
          simp only [List.length_cons] at this
          omega
        rcases kwSplit_core x lex rest0 TokType.first c cs hd hscan
          (Or.inl rfl) hlen hall hrne with ⟨hp, rest, htok, hrne2⟩
        exact ⟨hp, ⟨TokType.first, lex, rest, htok, Or.inl rfl, hrne2⟩,
          parse_psycopgQuoteIdent x⟩
  · rcases hm : matchAnyKw x.data with _ | ⟨lex, rest0⟩
    · rw [hm] at h
      exact absurd h (by simp [kwSuffixBad])
    · rw [hm] at h
      simp only [kwSuffixBad, Bool.and_eq_true] at h
      obtain ⟨hne', hall⟩ := h
      have hrne : rest0 ≠ [] := by
        rintro rfl
        simp at hne'
      rcases matchAnyKw_eq hm with ⟨heq, hlen3, c1, r1, hd, hclow⟩
      rw [hd] at hm
      have hm1 : matchFirstKw (c1 :: r1) = none := by
        apply matchFirstKw_none
        rw [hclow]
        decide
      have hscan := scan1_of_matchAny hm1 hm
      have hlen : rest0.length ≤ r1.length := by
        rw [hd] at heq
        have : (c1 :: r1).length = lex.length + rest0.length := by
          rw [heq, List.length_append]
        simp only [List.length_cons] at this
        omega
      rcases kwSplit_core x lex rest0 TokType.any c1 r1 hd hscan
        (Or.inr rfl) hlen hall hrne with ⟨hp, rest, htok, hrne2⟩
      exact ⟨hp, ⟨TokType.any, lex, rest, htok, Or.inr rfl, hrne2⟩,
        parse_psycopgQuoteIdent x⟩

/-- Witness for C10 at the name `firstly`. -/
theorem keyword_prefix_split_witness :
    parse_sync_standby_names "firstly" = none ∧
    (∃ t lex rest, tokenize "firstly" = (t, lex) :: rest ∧
      (t = TokType.first ∨ t = TokType.any) ∧ rest ≠ []) ∧
    parse_sync_standby_names (psycopgQuoteIdent "firstly") =
      some ⟨"priority", false, 1, ["firstly"]⟩ :=
  keyword_prefix_split "firstly" (by decide)
